import Mathlib

/-!
# Explorer service of the harmony node: block window, committee cache, signers, pages

A shallow embedding of `api/service/explorer/service.go`
(`Service.ReadBlocksFromDB` and `Service.GetExplorerBlocks`), followed by the
epoch function of the mainnet schedule, of which only the test
(`internal/configs/sharding/shardingconfig_test.go`) is at hand.

Conventions of the embedding.
* Go `int` and `int64` are 64-bit two's-complement integers: a value is an `Int`
  in `[-2^63, 2^63)` and every arithmetic result goes through `wrap64`.
* Go `uint64` is a `Nat`, converted by `int64OfUint64` where the source writes
  `int64(...)`.
* A nil `*types.Block` is `none`; a block is seen through the accessors the
  handler calls.
* A loop whose termination depends on the input carries a fuel argument.
* The collaborators that are not part of the two functions (key builders, the
  RLP decoder, the BLS mask, the address codec) are fields of `Env`.
-/

namespace Explorer

/-! ## Machine integers -/

/-- Two's-complement wrap of an integer into the range of a Go `int`/`int64`. -/
def wrap64 (x : Int) : Int := (x + 2 ^ 63) % 2 ^ 64 - 2 ^ 63

/-- The largest Go `int`. -/
def maxInt : Int := 2 ^ 63 - 1

/-- The smallest Go `int`. -/
def minInt : Int := -(2 ^ 63)

/-- The Go conversion `int64(x)` of a `uint64` value `x`: the same 64 bits read as
a two's-complement number. -/
def int64OfUint64 (x : Nat) : Int :=
  if x % 2 ^ 64 < 2 ^ 63 then ((x % 2 ^ 64 : Nat) : Int) else ((x % 2 ^ 64 : Nat) : Int) - 2 ^ 64

/-! ## Data model -/

/-- Raw bytes (`[]byte`). -/
abbrev Bytes := List Nat

/-- Member of a committee, `shard.NodeID`: account address and serialized BLS key. -/
structure NodeID where
  EcdsaAddress : Nat
  BlsPublicKey : Nat
deriving DecidableEq, Repr

/-- Ordered validator list of one shard, `shard.Committee`. -/
structure Committee where
  ShardID : Nat
  NodeList : List NodeID
deriving DecidableEq, Repr

/-- The zero value `shard.Committee{}`. -/
def Committee.empty : Committee := { ShardID := 0, NodeList := [] }

/-- A decoded `types.Block`, through the accessors `GetExplorerBlocks` uses:
`Hash().Hex()`, `Epoch()`, `ShardID()`, `Time()`, `Transactions()`,
`Header().LastCommitBitmap()` and `Header().GetShardState()` (`none` when it
returns an error). `Time` is the big integer `Time()`; `Time().Int64()` keeps
its low 64 bits, so that a difference of two such values in `int64` is `wrap64`
of the difference of the timestamps. -/
structure RawBlock where
  Hash : String
  Epoch : Nat
  ShardID : Nat
  Time : Int
  Transactions : List Nat
  LastCommitBitmap : Bytes
  ShardState : Option (List Committee)
deriving DecidableEq, Repr

/-- Reference to a neighbour block, `RefBlock`. -/
structure RefBlock where
  ID : String
  Height : String
deriving DecidableEq, Repr

/-- The record served for one block, `explorer.Block`, with the fields the
handler fills in. `Epoch` is a `uint64`: the handler converts it with
`int64(block.Epoch)` and passes it to `GetCommitteeKey`, which
`GetExplorerCommittee` calls with a `uint64` epoch. -/
structure Block where
  Height : String
  ID : String
  Epoch : Nat
  BlockTime : Int
  PrevBlock : RefBlock
  NextBlock : RefBlock
  TXs : List Nat
  Signers : List String
deriving DecidableEq, Repr

/-- Key-value store handle: `db.Get(key)` gives the bytes, or `none` on error. -/
abbrev DB := String → Option Bytes

/-- What is left in the target of `rlp.DecodeBytes(bytes, committee)` and whether
the call returned a nil error. -/
structure CommitteeDecode where
  value : Committee
  ok : Bool
deriving DecidableEq, Repr

/-- How a run of a function can end. -/
inductive Outcome (α : Type) where
  | ret (a : α)
  | exit (code : Nat)
  | panic
  | outOfFuel
deriving DecidableEq, Repr

/-- Collaborators of the handler that live outside `service.go`. -/
structure Env (Mask : Type) where
  /-- Go `GetBlockKey(i)` -/
  GetBlockKey : Int → String
  /-- Go `GetCommitteeKey(shardID, epoch)` -/
  GetCommitteeKey : Nat → Nat → String
  /-- Go `BlockHeightKey` -/
  BlockHeightKey : String
  /-- Go `rlp.DecodeBytes(data, block)`; `none` when it returns an error -/
  decodeBlock : Bytes → Option RawBlock
  /-- Go `rlp.DecodeBytes(bytes, committee)` into a fresh committee -/
  decodeCommittee : Bytes → CommitteeDecode
  /-- Go `BlsPublicKey.ToLibBLSPublicKey` -/
  toLibKey : Nat → Nat
  /-- Go `bls2.NewMask(pubkeys, nil)`; `none` when it returns an error -/
  NewMask : List Nat → Option Mask
  /-- Go `mask.SetMask(bitmap)`; `none` when it returns an error -/
  SetMask : Mask → Bytes → Option Mask
  /-- Go `mask.KeyEnabled(key)`; `none` when it returns an error -/
  KeyEnabled : Mask → Nat → Option Bool
  /-- Go `common2.AddressToBech32(addr)`; `none` when it returns an error -/
  AddressToBech32 : Nat → Option String
  /-- Go `GetTransaction(tx, block)`; `none` when it returns nil -/
  GetTransaction : Nat → RawBlock → Option Nat
  /-- Go `strconv.Atoi`; `none` when it returns an error -/
  Atoi : String → Option Int
  /-- Go `string(bytes)` -/
  bytesToString : Bytes → String

/-! ## ReadBlocksFromDB -/

/-- State of the loop of `ReadBlocksFromDB`: the slice `blocks` and, as a ghost
field, the heights whose key was passed to `storage.db.Get`. -/
structure ReadState where
  blocks : List (Option RawBlock)
  queried : List Int
deriving DecidableEq, Repr

/-- The loop `for i := from - 1; i <= to+1; i++` of `ReadBlocksFromDB`, started
at `i` with `bound = to+1`. A slot that fails to decode ends the process with
`os.Exit(1)`. The ghost log of queried heights is returned next to the outcome. -/
def readLoop {Mask : Type} (env : Env Mask) (db : DB) (bound : Int) :
    Nat → Int → ReadState → Outcome (List (Option RawBlock)) × List Int
  | 0, _, st => (Outcome.outOfFuel, st.queried)
  | fuel + 1, i, st =>
    if i ≤ bound then
      if i < 0 then
        readLoop env db bound fuel (wrap64 (i + 1))
          { st with blocks := st.blocks ++ [none] }
      else
        match db (env.GetBlockKey i) with
        | none =>
          readLoop env db bound fuel (wrap64 (i + 1))
            { blocks := st.blocks ++ [none], queried := st.queried ++ [i] }
        | some data =>
          match env.decodeBlock data with
          | none => (Outcome.exit 1, st.queried ++ [i])
          | some block =>
            readLoop env db bound fuel (wrap64 (i + 1))
              { blocks := st.blocks ++ [some block], queried := st.queried ++ [i] }
    else (Outcome.ret st.blocks, st.queried)

/-- Run of `ReadBlocksFromDB(from, to)` with its ghost log. -/
def readRun {Mask : Type} (env : Env Mask) (db : DB) (fuel : Nat) (fromInt toInt : Int) :
    Outcome (List (Option RawBlock)) × List Int :=
  readLoop env db (wrap64 (toInt + 1)) fuel (wrap64 (fromInt - 1)) { blocks := [], queried := [] }

/-- Embedding of `Service.ReadBlocksFromDB(from, to)`. -/
def ReadBlocksFromDB {Mask : Type} (env : Env Mask) (db : DB) (fuel : Nat) (fromInt toInt : Int) :
    Outcome (List (Option RawBlock)) :=
  (readRun env db fuel fromInt toInt).1

/-- The heights `ReadBlocksFromDB(from, to)` asks storage for. -/
def readQueries {Mask : Type} (env : Env Mask) (db : DB) (fuel : Nat) (fromInt toInt : Int) :
    List Int :=
  (readRun env db fuel fromInt toInt).2

/-- Content of the slot for height `h`: nil for a negative height or a missing
key, else the decoded block (`none` also when decoding fails, which
`ReadBlocksFromDB` never returns). -/
def slotAt {Mask : Type} (env : Env Mask) (db : DB) (h : Int) : Option RawBlock :=
  if h < 0 then none else (db (env.GetBlockKey h)).bind env.decodeBlock

/-- The stored bytes of height `h` exist and fail to decode. -/
def decodeFails {Mask : Type} (env : Env Mask) (db : DB) (h : Int) : Bool :=
  match db (env.GetBlockKey h) with
  | some data => (env.decodeBlock data).isNone
  | none => false

/-- The heights `i, i+1, ..., i+n-1`. -/
def heightsFrom (i : Int) : Nat → List Int
  | 0 => []
  | n + 1 => i :: heightsFrom (i + 1) n

/-! ## GetExplorerBlocks: the scan over the window -/

/-- Go `strconv.Itoa`: decimal text of an integer. -/
def Itoa (n : Int) : String := toString n

/-- The explicit empty reference `RefBlock{ID: "", Height: ""}`. -/
def RefBlock.empty : RefBlock := { ID := "", Height := "" }

/-- Modelled from the spec: `NewBlock(block, height)` of `structs.go`, which is not
part of the sources at hand. The record carries the decimal text of `height`, the
hash and the epoch of the block; the signer and transaction lists start empty
and the handler fills in the rest. -/
def NewBlock (block : RawBlock) (height : Int) : Block :=
  { Height := Itoa height
    ID := block.Hash
    Epoch := block.Epoch
    BlockTime := 0
    PrevBlock := RefBlock.empty
    NextBlock := RefBlock.empty
    TXs := []
    Signers := [] }

/-- Lines 245-260 of `GetExplorerBlocks`: the committee after a lookup for `epoch`,
given the committee held before. The persisted record is used whenever
`db.Get` succeeds (whatever `rlp.DecodeBytes` leaves in the fresh committee);
otherwise the first entry of the header's shard state whose shard matches the
block's shard; otherwise the committee is left as it was. -/
def resolveCommittee {Mask : Type} (env : Env Mask) (db : DB) (ShardID : Nat)
    (accountBlock : RawBlock) (epoch : Nat) (committee : Committee) : Committee :=
  match db (env.GetCommitteeKey ShardID epoch) with
  | some bytes => (env.decodeCommittee bytes).value
  | none =>
    match accountBlock.ShardState with
    | some state =>
      match state.find? (fun shardCommittee => shardCommittee.ShardID == accountBlock.ShardID) with
      | some shardCommittee => shardCommittee
      | none => committee
    | none => committee

/-- Lines 272-282: the loop over `committee.NodeList` once the mask is set. -/
def enabledSigners {Mask : Type} (env : Env Mask) (mask : Mask) (nodes : List NodeID) :
    List String :=
  nodes.filterMap (fun validator =>
    match env.AddressToBech32 validator.EcdsaAddress with
    | none => none
    | some oneAddress =>
      match env.KeyEnabled mask (env.toLibKey validator.BlsPublicKey) with
      | some true => some oneAddress
      | _ => none)

/-- Lines 270-283: the signer list once the mask is built and the next slot is
known to hold a block with commit bitmap `bitmap`. -/
def signersOfBitmap {Mask : Type} (env : Env Mask) (committee : Committee) (mask : Mask)
    (bitmap : Bytes) : List String :=
  match env.SetMask mask bitmap with
  | none => []
  | some mask => enabledSigners env mask committee.NodeList

/-- The keys handed to `bls2.NewMask` (lines 263-267). -/
def committeeKeys {Mask : Type} (env : Env Mask) (committee : Committee) : List Nat :=
  committee.NodeList.map (fun validator => env.toLibKey validator.BlsPublicKey)

/-- Lines 263-284: the signer list of a block, from the committee in the cache and
the slot that follows the block. -/
def decodeSigners {Mask : Type} (env : Env Mask) (committee : Committee)
    (next : Option RawBlock) : List String :=
  match env.NewMask (committeeKeys env committee) with
  | none => []
  | some mask =>
    match next with
    | none => []
    | some nextBlock => signersOfBitmap env committee mask nextBlock.LastCommitBitmap

/-- Ghost record of one pass of the loop body over a materialized slot: the slot
index and its block, `curEpoch` and `committee` on entry, whether the committee
lookup of lines 245-260 ran, and the committee the signers were decoded against. -/
structure Visit where
  id : Nat
  block : RawBlock
  epochBefore : Int
  committeeBefore : Committee
  resolved : Bool
  committee : Committee
deriving DecidableEq, Repr

/-- State carried by the loop of `GetExplorerBlocks`: `curEpoch`, `committee` and
`data.Blocks`, and as a ghost field the trace of the passes of the loop body. -/
structure ScanState where
  curEpoch : Int
  committee : Committee
  blocks : List Block
  visits : List Visit
deriving DecidableEq, Repr

/-- The state before the loop: `curEpoch := int64(-1)`, `committee := &shard.Committee{}`. -/
def ScanState.init : ScanState :=
  { curEpoch := -1, committee := Committee.empty, blocks := [], visits := [] }

/-- Lines 243 and 263-315: the record appended for slot `id`, given the committee
in the cache after lines 244-262 and the two neighbour slots. -/
def buildRecord {Mask : Type} (env : Env Mask) (fromInt : Int) (committee : Committee)
    (id : Nat) (accountBlock : RawBlock) (next prev : Option RawBlock) : Block :=
  let block := NewBlock accountBlock (wrap64 (wrap64 (id + fromInt) - 1))
  let signers := decodeSigners env committee next
  let txs := accountBlock.Transactions.filterMap (fun tx => env.GetTransaction tx accountBlock)
  let blockTime : Int :=
    match prev with
    | none => 0
    | some prevBlock => wrap64 (accountBlock.Time - prevBlock.Time)
  let prevRef : RefBlock :=
    match prev with
    | none => RefBlock.empty
    | some prevBlock =>
      { ID := prevBlock.Hash, Height := Itoa (wrap64 (wrap64 (id + fromInt) - 2)) }
  let nextRef : RefBlock :=
    match next with
    | none => RefBlock.empty
    | some nextBlock => { ID := nextBlock.Hash, Height := Itoa (wrap64 (id + fromInt)) }
  { block with
    Signers := block.Signers ++ signers
    TXs := block.TXs ++ txs
    BlockTime := blockTime
    PrevBlock := prevRef
    NextBlock := nextRef }

/-- Lines 243-316: the effect of the loop body on the state for a materialized
slot `id`, given the contents of the slots `id+1` and `id-1`. -/
def applyBlock {Mask : Type} (env : Env Mask) (db : DB) (ShardID : Nat) (fromInt : Int)
    (st : ScanState) (id : Nat) (accountBlock : RawBlock) (next prev : Option RawBlock) :
    ScanState :=
  let block := NewBlock accountBlock (wrap64 (wrap64 (id + fromInt) - 1))
  let resolve : Bool := decide (int64OfUint64 block.Epoch > st.curEpoch)
  let committee :=
    if resolve then resolveCommittee env db ShardID accountBlock block.Epoch st.committee
    else st.committee
  let curEpoch := if resolve then int64OfUint64 block.Epoch else st.curEpoch
  { curEpoch := curEpoch
    committee := committee
    blocks := st.blocks ++ [buildRecord env fromInt committee id accountBlock next prev]
    visits := st.visits ++
      [{ id := id, block := accountBlock, epochBefore := st.curEpoch,
         committeeBefore := st.committee, resolved := resolve, committee := committee }] }

/-- Lines 243-316: the body of the loop for a materialized slot `id`. Reading
`accountBlocks[id+1]` or `accountBlocks[id-1]` outside the slice is a run-time
panic. -/
def processBlock {Mask : Type} (env : Env Mask) (db : DB) (ShardID : Nat) (fromInt : Int)
    (accountBlocks : List (Option RawBlock)) (st : ScanState) (id : Nat)
    (accountBlock : RawBlock) : Outcome ScanState :=
  match accountBlocks.get? (id + 1), accountBlocks.get? (id - 1) with
  | some next, some prev =>
    Outcome.ret (applyBlock env db ShardID fromInt st id accountBlock next prev)
  | _, _ => Outcome.panic

/-- The loop `for id, accountBlock := range accountBlocks` over the remaining
(index, slot) pairs. -/
def scanLoop {Mask : Type} (env : Env Mask) (db : DB) (ShardID : Nat) (fromInt : Int)
    (accountBlocks : List (Option RawBlock)) :
    List (Nat × Option RawBlock) → ScanState → Outcome ScanState
  | [], st => Outcome.ret st
  | (id, slot) :: rest, st =>
    if id = 0 ∨ (id : Int) = (accountBlocks.length : Int) - 1 then
      scanLoop env db ShardID fromInt accountBlocks rest st
    else
      match slot with
      | none => scanLoop env db ShardID fromInt accountBlocks rest st
      | some accountBlock =>
        match processBlock env db ShardID fromInt accountBlocks st id accountBlock with
        | Outcome.ret st1 => scanLoop env db ShardID fromInt accountBlocks rest st1
        | other => other

/-- Lines 237-317: the whole loop over the window, from the initial state. -/
def scan {Mask : Type} (env : Env Mask) (db : DB) (ShardID : Nat) (fromInt : Int)
    (accountBlocks : List (Option RawBlock)) : Outcome ScanState :=
  scanLoop env db ShardID fromInt accountBlocks accountBlocks.enum ScanState.init

/-- The slot `accountBlocks[id]`, nil also outside the slice. -/
def slot (accountBlocks : List (Option RawBlock)) (id : Nat) : Option RawBlock :=
  (accountBlocks.get? id).join

/-- The guard of line 240 on a pair of the range loop: the block of a slot that
is materialized, with its index. -/
def materializedPair (len : Nat) (p : Nat × Option RawBlock) : Option (Nat × RawBlock) :=
  if p.1 = 0 ∨ (p.1 : Int) = (len : Int) - 1 then none else p.2.map (fun b => (p.1, b))

/-- The materialized slots of a window, in the order of the loop: the non-nil
slots other than the first and the last. -/
def materialized (accountBlocks : List (Option RawBlock)) : List (Nat × RawBlock) :=
  accountBlocks.enum.filterMap (materializedPair accountBlocks.length)

/-- The loop body as a step on a materialized slot of the window. -/
def visit {Mask : Type} (env : Env Mask) (db : DB) (ShardID : Nat) (fromInt : Int)
    (accountBlocks : List (Option RawBlock)) (st : ScanState) (p : Nat × RawBlock) : ScanState :=
  applyBlock env db ShardID fromInt st p.1 p.2 (slot accountBlocks (p.1 + 1))
    (slot accountBlocks (p.1 - 1))

/-! ## GetExplorerBlocks: pagination -/

/-- Lines 320-322: the loop
`for i := 0; i < offset && i+offset*page < len(data.Blocks); i++`.
A negative index, or one past the end, is a run-time panic. -/
def paginateLoop (blocks : List Block) (offset page : Int) :
    Nat → Int → List Block → Outcome (List Block)
  | 0, _, _ => Outcome.outOfFuel
  | fuel + 1, i, acc =>
    if i < offset ∧ wrap64 (i + wrap64 (offset * page)) < (blocks.length : Int) then
      let idx := wrap64 (i + wrap64 (offset * page))
      if idx < 0 then Outcome.panic
      else
        match blocks.get? idx.toNat with
        | none => Outcome.panic
        | some b => paginateLoop blocks offset page fuel (wrap64 (i + 1)) (acc ++ [b])
    else Outcome.ret acc

/-- Lines 319-323: the pagination step. The loop runs at most `offset` times, so
`offset + 1` units of fuel always suffice. -/
def paginate (blocks : List Block) (offset page : Int) : Outcome (List Block) :=
  paginateLoop blocks offset page (offset.toNat + 1) 0 []

/-! ## GetExplorerBlocks: the handler -/

/-- The four form values read by the handler. -/
structure Request where
  fromParam : String
  toParam : String
  pageParam : String
  offsetParam : String
deriving DecidableEq, Repr

/-- What the handler sends: the status code and the encoded `data.Blocks`. -/
structure Response where
  status : Nat
  blocks : List Block
deriving DecidableEq, Repr

/-- Status `http.StatusBadRequest` with the empty block list. -/
def badRequest : Response := { status := 400, blocks := [] }

/-- The constant `paginationOffset`. -/
def paginationOffset : Int := 10

/-- Lines 196-207: the upper end of the range, from the `to` parameter or, when it
is empty, from the stored chain height. -/
def parseTo {Mask : Type} (env : Env Mask) (db : DB) (toParam : String) : Option Int :=
  if toParam = "" then
    match db env.BlockHeightKey with
    | some bytes => env.Atoi (env.bytesToString bytes)
    | none => none
  else env.Atoi toParam

/-- Embedding of `Service.GetExplorerBlocks`. -/
def GetExplorerBlocks {Mask : Type} (env : Env Mask) (db : DB) (ShardID : Nat) (fuel : Nat)
    (r : Request) : Outcome Response :=
  if r.fromParam = "" then Outcome.ret badRequest
  else
    match env.Atoi r.fromParam with
    | none => Outcome.ret badRequest
    | some fromInt =>
      match parseTo env db r.toParam with
      | none => Outcome.ret badRequest
      | some toInt =>
        let offsetRes : Option Int :=
          if r.offsetParam ≠ "" then
            match env.Atoi r.offsetParam with
            | none => none
            | some offset => if offset < 1 then none else some offset
          else some paginationOffset
        match offsetRes with
        | none => Outcome.ret badRequest
        | some offset =>
          let pageRes : Option Int :=
            if r.pageParam ≠ "" then env.Atoi r.pageParam else some 0
          match pageRes with
          | none => Outcome.ret badRequest
          | some page =>
            match ReadBlocksFromDB env db fuel fromInt toInt with
            | Outcome.ret accountBlocks =>
              match scan env db ShardID fromInt accountBlocks with
              | Outcome.ret st =>
                match paginate st.blocks offset page with
                | Outcome.ret paginatedBlocks =>
                  Outcome.ret { status := 200, blocks := paginatedBlocks }
                | Outcome.exit code => Outcome.exit code
                | Outcome.panic => Outcome.panic
                | Outcome.outOfFuel => Outcome.outOfFuel
              | Outcome.exit code => Outcome.exit code
              | Outcome.panic => Outcome.panic
              | Outcome.outOfFuel => Outcome.outOfFuel
            | Outcome.exit code => Outcome.exit code
            | Outcome.panic => Outcome.panic
            | Outcome.outOfFuel => Outcome.outOfFuel

/-! ## A concrete instance of the collaborators -/

/-- Modelled from the spec: the mask of `crypto/bls/mask.go`, which is not part of
the sources at hand: a mask positioned over the committee's public keys in list
order, bit `i` of the bitmap standing for key `i`. -/
structure SimpleMask where
  publics : List Nat
  bitmap : Bytes
deriving DecidableEq, Repr

/-- Modelled from the spec: `NewMask(publics, nil)` of the absent `mask.go`: a mask
over the keys with every bit cleared. -/
def SimpleMask.new (publics : List Nat) : Option SimpleMask :=
  some { publics := publics, bitmap := List.replicate ((publics.length + 7) / 8) 0 }

/-- Modelled from the spec: `SetMask` of the absent `mask.go`: the bitmap is parsed
into the mask; bytes of the wrong length are malformed. -/
def SimpleMask.set (m : SimpleMask) (mask : Bytes) : Option SimpleMask :=
  if mask.length = (m.publics.length + 7) / 8 then some { m with bitmap := mask } else none

/-- Modelled from the spec: `KeyEnabled` of the absent `mask.go`: the bit at the
position of the key, an error for a key that is not in the mask. -/
def SimpleMask.keyEnabled (m : SimpleMask) (key : Nat) : Option Bool :=
  let i := m.publics.indexOf key
  if i < m.publics.length then some (decide (m.bitmap.getD (i / 8) 0 / 2 ^ (i % 8) % 2 = 1))
  else none

/-- A store given by an association list of keys and values. -/
def tableDB (entries : List (String × Bytes)) : DB :=
  fun key => (entries.find? (fun e => e.1 == key)).map (fun e => e.2)

/-- A decoder given by an association list; bytes outside the list fail to decode. -/
def tableDecode {α : Type} (entries : List (Bytes × α)) (data : Bytes) : Option α :=
  (entries.find? (fun e => e.1 == data)).map (fun e => e.2)

/-- A concrete set of collaborators: keys are `b_<height>` and `c_<shard>_<epoch>`,
the decoders are tables, BLS keys convert to themselves, and the display form
of address `a` is `one<a>`. -/
def tableEnv (blocks : List (Bytes × RawBlock)) (committees : List (Bytes × Committee)) :
    Env SimpleMask :=
  { GetBlockKey := fun i => "b_" ++ toString i
    GetCommitteeKey := fun shardID epoch => "c_" ++ toString shardID ++ "_" ++ toString epoch
    BlockHeightKey := "height"
    decodeBlock := tableDecode blocks
    decodeCommittee := fun bytes =>
      match tableDecode committees bytes with
      | some c => { value := c, ok := true }
      | none => { value := Committee.empty, ok := false }
    toLibKey := fun k => k
    NewMask := SimpleMask.new
    SetMask := SimpleMask.set
    KeyEnabled := SimpleMask.keyEnabled
    AddressToBech32 := fun a => some ("one" ++ toString a)
    GetTransaction := fun tx _ => some tx
    Atoi := fun s => s.toInt?
    bytesToString := fun bytes => String.mk (bytes.map Char.ofNat) }

/-! ## Sample data -/

/-- Committee stored for shard 0, epoch 0. -/
def sampleCommittee0 : Committee :=
  { ShardID := 0, NodeList := [{ EcdsaAddress := 7, BlsPublicKey := 70 },
                               { EcdsaAddress := 8, BlsPublicKey := 80 }] }

/-- Committee of shard 0 in epoch 1. -/
def sampleCommittee1 : Committee :=
  { ShardID := 0, NodeList := [{ EcdsaAddress := 9, BlsPublicKey := 90 }] }

/-- A block of shard 0 without transactions and without a shard state. -/
def sampleBlock (hash : String) (epoch : Nat) (time : Int) (bitmap : Bytes) : RawBlock :=
  { Hash := hash, Epoch := epoch, ShardID := 0, Time := time, Transactions := [],
    LastCommitBitmap := bitmap, ShardState := none }

/-- Block at height 0 (epoch 0). -/
def sampleBlock0 : RawBlock := sampleBlock "0xa0" 0 100 []

/-- Block at height 1 (epoch 0); its bitmap marks validator 0 as signer of block 0. -/
def sampleBlock1 : RawBlock := sampleBlock "0xa1" 0 108 [1]

/-- Block at height 2 (epoch 1); its bitmap marks validator 1 as signer of block 1. -/
def sampleBlock2 : RawBlock := sampleBlock "0xa2" 1 117 [2]

/-- Block at height 3 (epoch 1); its bitmap marks validator 0 as signer of block 2. -/
def sampleBlock3 : RawBlock := sampleBlock "0xa3" 1 125 [1]

/-- Collaborators that decode the sample blocks and the two sample committees. -/
def sampleEnv : Env SimpleMask :=
  tableEnv [([10], sampleBlock0), ([11], sampleBlock1), ([12], sampleBlock2), ([13], sampleBlock3)]
    [([20], sampleCommittee0), ([21], sampleCommittee1)]

/-- A store with blocks 0 to 3 and the committee record of epoch 0 only. -/
def sampleDB : DB :=
  tableDB [("b_0", [10]), ("b_1", [11]), ("b_2", [12]), ("b_3", [13]), ("c_0_0", [20])]

/-- The sample store with the committee record of epoch 1 as well. -/
def sampleDBFull : DB :=
  tableDB [("b_0", [10]), ("b_1", [11]), ("b_2", [12]), ("b_3", [13]), ("c_0_0", [20]),
    ("c_0_1", [21])]

/-- A store whose bytes at heights 1 and 5 are not a block. -/
def corruptDB : DB :=
  tableDB [("b_0", [10]), ("b_1", [66]), ("b_2", [12]), ("b_5", [66])]

/-- A sequence of 35 records, the record at index `k` carrying height `k`. -/
def sampleRecords : List Block :=
  (List.range 35).map (fun k => NewBlock sampleBlock0 (k : Int))

/-- The value of `curEpoch` after a pass of the loop body. -/
def Visit.epochAfter (v : Visit) : Int :=
  if v.resolved then int64OfUint64 v.block.Epoch else v.epochBefore

/-- A pass of the loop body follows lines 244-262: the lookup runs exactly when the
epoch of the block, converted to `int64`, exceeds `curEpoch`, and the committee
used afterwards is the looked-up one or the one held before. -/
def Visit.follows {Mask : Type} (env : Env Mask) (db : DB) (ShardID : Nat) (v : Visit) : Prop :=
  v.resolved = decide (int64OfUint64 v.block.Epoch > v.epochBefore) ∧
  v.committee =
    (if v.resolved then resolveCommittee env db ShardID v.block v.block.Epoch v.committeeBefore
     else v.committeeBefore)

/-- A trace of passes that starts with the cache `(e, c)`, in which every pass
follows the loop body and starts with the cache its predecessor left, and that
leaves the cache `(e1, c1)`. -/
def validTrace {Mask : Type} (env : Env Mask) (db : DB) (ShardID : Nat) :
    Int → Committee → List Visit → Int → Committee → Prop
  | e, c, [], e1, c1 => e = e1 ∧ c = c1
  | e, c, v :: vs, e1, c1 =>
    v.epochBefore = e ∧ v.committeeBefore = c ∧ v.follows env db ShardID ∧
      validTrace env db ShardID v.epochAfter v.committee vs e1 c1

/-- The record the loop appends on a pass, from the ghost data of the pass. -/
def Visit.record {Mask : Type} (env : Env Mask) (fromInt : Int)
    (accountBlocks : List (Option RawBlock)) (v : Visit) : Block :=
  buildRecord env fromInt v.committee v.id v.block (slot accountBlocks (v.id + 1))
    (slot accountBlocks (v.id - 1))

/-- A record with its signer list cleared: every field except `Signers`. -/
def Block.withoutSigners (b : Block) : Block := { b with Signers := [] }

/-- A block with its commit bitmap replaced. -/
def RawBlock.withBitmap (b : RawBlock) (bitmap : Bytes) : RawBlock :=
  { b with LastCommitBitmap := bitmap }

/-- The display addresses of a committee, in committee order, skipping the
validators whose address fails to encode. -/
def committeeAddresses {Mask : Type} (env : Env Mask) (committee : Committee) : List String :=
  committee.NodeList.filterMap (fun validator => env.AddressToBech32 validator.EcdsaAddress)

/-- The value a run returned, if it returned. -/
def Outcome.returned {α : Type} : Outcome α → Option α
  | Outcome.ret a => some a
  | _ => none

/-- The sample block of height 2 with a shard state in its header that holds the
committee of epoch 1 for shard 0. -/
def sampleBlock2State : RawBlock :=
  { sampleBlock2 with ShardState := some [sampleCommittee1] }

/-- A store whose committee record for shard 0, epoch 1 is not a committee. -/
def corruptCommitteeDB : DB :=
  tableDB [("c_0_0", [20]), ("c_0_1", [99])]

/-- A block of shard 0 whose epoch is `2^63`. -/
def sampleBlockBigEpoch : RawBlock := sampleBlock "0xb1" (2 ^ 63) 108 [1]

/-- The window of heights 0 to 3 of the sample store. -/
def sampleWindow : List (Option RawBlock) :=
  [some sampleBlock0, some sampleBlock1, some sampleBlock2, some sampleBlock3]

/-! ## GetExplorerBlocks: the parameters, seen apart from the serving -/

/-- The four numbers the handler works with once the form values are accepted. -/
structure Params where
  fromInt : Int
  toInt : Int
  offset : Int
  page : Int
deriving DecidableEq, Repr

/-- Lines 213-223: the page size, from the `offset` parameter or the default; `none`
when the handler answers `StatusBadRequest`. -/
def parseOffset {Mask : Type} (env : Env Mask) (offsetParam : String) : Option Int :=
  if offsetParam ≠ "" then
    match env.Atoi offsetParam with
    | none => none
    | some offset => if offset < 1 then none else some offset
  else some paginationOffset

/-- Lines 224-234: the page number, from the `page` parameter or 0; `none` when the
handler answers `StatusBadRequest`. -/
def parsePage {Mask : Type} (env : Env Mask) (pageParam : String) : Option Int :=
  if pageParam ≠ "" then env.Atoi pageParam else some 0

/-- Lines 184-234: the checks on the form values, in the order of the handler;
`none` when one of them answers `StatusBadRequest`. -/
def parseParams {Mask : Type} (env : Env Mask) (db : DB) (r : Request) : Option Params :=
  if r.fromParam = "" then none
  else
    match env.Atoi r.fromParam with
    | none => none
    | some fromInt =>
      match parseTo env db r.toParam with
      | none => none
      | some toInt =>
        match parseOffset env r.offsetParam with
        | none => none
        | some offset =>
          match parsePage env r.pageParam with
          | none => none
          | some page => some { fromInt := fromInt, toInt := toInt, offset := offset, page := page }

/-- Lines 236-323: what the handler does with accepted parameters: it reads the
window, scans it and cuts the page. -/
def serve {Mask : Type} (env : Env Mask) (db : DB) (ShardID : Nat) (fuel : Nat) (q : Params) :
    Outcome Response :=
  match ReadBlocksFromDB env db fuel q.fromInt q.toInt with
  | Outcome.ret accountBlocks =>
    match scan env db ShardID q.fromInt accountBlocks with
    | Outcome.ret st =>
      match paginate st.blocks q.offset q.page with
      | Outcome.ret paginatedBlocks => Outcome.ret { status := 200, blocks := paginatedBlocks }
      | Outcome.exit code => Outcome.exit code
      | Outcome.panic => Outcome.panic
      | Outcome.outOfFuel => Outcome.outOfFuel
    | Outcome.exit code => Outcome.exit code
    | Outcome.panic => Outcome.panic
    | Outcome.outOfFuel => Outcome.outOfFuel
  | Outcome.exit code => Outcome.exit code
  | Outcome.panic => Outcome.panic
  | Outcome.outOfFuel => Outcome.outOfFuel

/-- The value of a string of decimal digits; `none` for an empty string or one
with another character. -/
def digitsValue : List Char → Option Nat
  | [] => none
  | c :: cs =>
    (c :: cs).foldl
      (fun acc d =>
        match acc with
        | none => none
        | some n => if d.isDigit then some (10 * n + (d.toNat - 48)) else none)
      (some 0)

/-- A decimal reading of `strconv.Atoi` on a 64-bit platform: an optional sign, at
least one digit, and an error outside the range of `int`. -/
def decimalAtoi (s : String) : Option Int :=
  let signed : Option Int :=
    match s.data with
    | '-' :: ds => (digitsValue ds).map (fun n => -(n : Int))
    | '+' :: ds => (digitsValue ds).map (fun n => (n : Int))
    | ds => (digitsValue ds).map (fun n => (n : Int))
  match signed with
  | none => none
  | some v => if minInt ≤ v ∧ v ≤ maxInt then some v else none

/-- The sample collaborators with the decimal reading of `strconv.Atoi`. -/
def requestEnv : Env SimpleMask := { sampleEnv with Atoi := decimalAtoi }

/-- A block of shard 0 whose timestamp is 0. -/
def sampleBlockEarly : RawBlock := sampleBlock "0xc0" 0 0 []

/-- A block of shard 0 whose timestamp is `2^63`. -/
def sampleBlockLate : RawBlock := sampleBlock "0xc1" 0 (2 ^ 63) []

/-! ## The mainnet schedule -/

/-- Modelled from the spec: the transition boundary of the mainnet schedule, the
first height of epoch 1. The schedule itself
(`internal/configs/sharding/mainnet.go`) is not part of the sources at hand;
only its test is. -/
def mainnetEpochBlock1 : Nat := 344064

/-- Modelled from the spec: the block count of every epoch after the genesis epoch
in the mainnet schedule, whose source is not at hand. -/
def blocksPerEpoch : Nat := 16384

/-- Modelled from the spec: `MainnetSchedule.CalcEpochNumber(blockNum)`, whose source
is not at hand: a height below the transition boundary maps to epoch 0; from
the boundary on the epoch is 1 plus the number of whole epoch lengths between
the boundary and the height. -/
def CalcEpochNumber (blockNum : Nat) : Nat :=
  if blockNum < mainnetEpochBlock1 then 0
  else 1 + (blockNum - mainnetEpochBlock1) / blocksPerEpoch

/-- The table of `TestCalcEpochNumber` in `shardingconfig_test.go`: pairs of a block
height and the epoch the test expects. -/
def calcEpochNumberTests : List (Nat × Nat) :=
  [(0, 0), (1, 0), (327679, 0), (327680, 0), (344064, 1), (344063, 0), (344065, 1), (360448, 2)]

/-- Lines 245-260 of `GetExplorerBlocks`, read as a search: the committee the lookup
for `epoch` finds, if it finds one. The first tier is the persisted record keyed
by the shard of the service and the epoch; the second tier, tried when
`db.Get` fails, is the first entry of the shard state in the header of the block
whose shard is the shard of the block. -/
def lookupCommittee {Mask : Type} (env : Env Mask) (db : DB) (ShardID : Nat)
    (accountBlock : RawBlock) (epoch : Nat) : Option Committee :=
  match db (env.GetCommitteeKey ShardID epoch) with
  | some bytes => some (env.decodeCommittee bytes).value
  | none =>
    match accountBlock.ShardState with
    | some state =>
      state.find? (fun shardCommittee => shardCommittee.ShardID == accountBlock.ShardID)
    | none => none

/-- The window of heights 0 to 3 in which the header of the block of height 2
carries the shard state with the committee of epoch 1. -/
def sampleWindowState : List (Option RawBlock) :=
  [some sampleBlock0, some sampleBlock1, some sampleBlock2State, some sampleBlock3]

/-! # Theorems -/

/-! ## Machine integers: facts -/

theorem wrap64_of_range (x : Int) (h1 : -(2 ^ 63) ≤ x) (h2 : x < 2 ^ 63) : wrap64 x = x := by
  unfold wrap64
  omega

theorem int64OfUint64_of_lt (e : Nat) (h : e < 2 ^ 63) : int64OfUint64 e = (e : Int) := by
  unfold int64OfUint64
  have h1 : e % 2 ^ 64 = e := Nat.mod_eq_of_lt (by omega)
  rw [h1, if_pos h]

/-! ## ReadBlocksFromDB: facts -/

theorem heightsFrom_length (i : Int) (n : Nat) : (heightsFrom i n).length = n := by
  induction n generalizing i with
  | zero => rfl
  | succ n ih => simp [heightsFrom, ih]

theorem heightsFrom_get? (i : Int) (n k : Nat) (hk : k < n) :
    (heightsFrom i n).get? k = some (i + k) := by
  induction n generalizing i k with
  | zero => omega
  | succ n ih =>
    cases k with
    | zero => simp [heightsFrom]
    | succ k =>
      simp only [heightsFrom, List.get?_cons_succ]
      rw [ih (i + 1) k (by omega)]
      congr 1
      push_cast
      ring

theorem mem_heightsFrom (i : Int) (n : Nat) (h : Int) :
    h ∈ heightsFrom i n ↔ i ≤ h ∧ h < i + n := by
  induction n generalizing i with
  | zero => simp [heightsFrom]
  | succ n ih =>
    simp only [heightsFrom, List.mem_cons, ih]
    push_cast
    omega

/-- With no overflow and no undecodable slot, enough fuel makes the loop return
the slots of the remaining heights and log the non-negative ones. -/
theorem readLoop_ok {Mask : Type} (env : Env Mask) (db : DB) (bound : Int)
    (hbound : bound < maxInt) (n : Nat) :
    ∀ (fuel : Nat) (i : Int) (st : ReadState), i + n = bound + 1 → minInt ≤ i →
      (∀ h, i ≤ h → h ≤ bound → decodeFails env db h = false) → n < fuel →
      readLoop env db bound fuel i st =
        (Outcome.ret (st.blocks ++ (heightsFrom i n).map (slotAt env db)),
          st.queried ++ (heightsFrom i n).filter (fun h => decide (0 ≤ h))) := by
  induction n with
  | zero =>
    intro fuel i st hi _ _ hfuel
    obtain ⟨f, rfl⟩ : ∃ f, fuel = f + 1 := ⟨fuel - 1, by omega⟩
    have : ¬ i ≤ bound := by omega
    simp [readLoop, this, heightsFrom]
  | succ n ih =>
    intro fuel i st hi hmin hdec hfuel
    obtain ⟨f, rfl⟩ : ∃ f, fuel = f + 1 := ⟨fuel - 1, by omega⟩
    have hle : i ≤ bound := by omega
    have hw : wrap64 (i + 1) = i + 1 := by
      apply wrap64_of_range <;> simp only [maxInt, minInt] at * <;> omega
    have hrec := fun st1 => ih f (i + 1) st1 (by push_cast at hi; omega) (by omega)
      (fun h h1 h2 => hdec h (by omega) h2) (by omega)
    unfold readLoop
    rw [if_pos hle, hw]
    by_cases hneg : i < 0
    · rw [if_pos hneg, hrec]
      have h0 : ¬ (0 ≤ i) := by omega
      simp [heightsFrom, slotAt, hneg, h0]
    · rw [if_neg hneg]
      have h0 : 0 ≤ i := by omega
      cases hget : db (env.GetBlockKey i) with
      | none =>
        simp only []
        rw [hrec]
        simp [heightsFrom, slotAt, hneg, h0, hget]
      | some data =>
        cases hd : env.decodeBlock data with
        | none =>
          have := hdec i le_rfl hle
          simp [decodeFails, hget, hd] at this
        | some block =>
          simp only [hd]
          rw [hrec]
          simp [heightsFrom, slotAt, hneg, h0, hget, hd]

/-- Whatever the fuel and whether or not the run ends in `os.Exit`, every height
the loop asks storage for is non-negative and lies between its start and its
bound. -/
theorem readLoop_queries {Mask : Type} (env : Env Mask) (db : DB) (bound lo : Int)
    (hbound : bound < maxInt) (hlo0 : minInt ≤ lo) (fuel : Nat) :
    ∀ (i : Int) (st : ReadState), lo ≤ i →
      (∀ h ∈ st.queried, lo ≤ h ∧ 0 ≤ h ∧ h ≤ bound) →
      ∀ h ∈ (readLoop env db bound fuel i st).2, lo ≤ h ∧ 0 ≤ h ∧ h ≤ bound := by
  induction fuel with
  | zero => intro i st _ hst; simpa [readLoop] using hst
  | succ f ih =>
    intro i st hlo hst
    unfold readLoop
    by_cases hle : i ≤ bound
    · have hw : wrap64 (i + 1) = i + 1 := by
        unfold wrap64
        simp only [maxInt, minInt] at hbound hlo0
        omega
      have hq : 0 ≤ i → ∀ h ∈ st.queried ++ [i], lo ≤ h ∧ 0 ≤ h ∧ h ≤ bound := by
        intro h0 h hh
        rcases List.mem_append.mp hh with hh | hh
        · exact hst h hh
        · simp only [List.mem_singleton] at hh
          subst hh
          exact ⟨hlo, h0, hle⟩
      rw [if_pos hle, hw]
      by_cases hneg : i < 0
      · rw [if_pos hneg]
        exact ih (i + 1) _ (by omega) hst
      · rw [if_neg hneg]
        have h0 : 0 ≤ i := by omega
        cases hget : db (env.GetBlockKey i) with
        | none =>
          simp only []
          exact ih (i + 1) _ (by omega) (hq h0)
        | some data =>
          cases hd : env.decodeBlock data with
          | none =>
            simp only [hd]
            exact hq h0
          | some block =>
            simp only [hd]
            exact ih (i + 1) _ (by omega) (hq h0)
    · rw [if_neg hle]
      exact hst

/-- When the stored bytes of a height still ahead of the loop fail to decode, the
loop never returns a list: it ends in `os.Exit(1)`, or the fuel runs out before
that height. -/
theorem readLoop_exit {Mask : Type} (env : Env Mask) (db : DB) (bound : Int)
    (hbound : bound < maxInt) (bad : Int) (hbad0 : 0 ≤ bad) (hbadle : bad ≤ bound)
    (hfails : decodeFails env db bad = true) (fuel : Nat) :
    ∀ (i : Int) (st : ReadState), minInt ≤ i → i ≤ bad →
      (readLoop env db bound fuel i st).1 = Outcome.exit 1 ∨
        ((readLoop env db bound fuel i st).1 = Outcome.outOfFuel ∧ (fuel : Int) ≤ bad - i) := by
  induction fuel with
  | zero =>
    intro i st _ hi
    right
    exact ⟨rfl, by push_cast; omega⟩
  | succ f ih =>
    intro i st hmin hi
    obtain ⟨bytes, hb1, hb2⟩ : ∃ data, db (env.GetBlockKey bad) = some data ∧
        env.decodeBlock data = none := by
      unfold decodeFails at hfails
      cases hget : db (env.GetBlockKey bad) with
      | none => simp [hget] at hfails
      | some data => exact ⟨data, rfl, by simpa [hget] using hfails⟩
    have hle : i ≤ bound := by omega
    have hw : wrap64 (i + 1) = i + 1 := by
      unfold wrap64
      simp only [maxInt, minInt] at hbound hmin
      omega
    have hstep : ∀ st1, i ≠ bad →
        (readLoop env db bound f (i + 1) st1).1 = Outcome.exit 1 ∨
        ((readLoop env db bound f (i + 1) st1).1 = Outcome.outOfFuel ∧
          ((f + 1 : Nat) : Int) ≤ bad - i) := by
      intro st1 hne
      rcases ih (i + 1) st1 (by omega) (by omega) with h | ⟨h1, h2⟩
      · exact Or.inl h
      · exact Or.inr ⟨h1, by push_cast; omega⟩
    unfold readLoop
    rw [if_pos hle, hw]
    by_cases hneg : i < 0
    · rw [if_pos hneg]
      exact hstep _ (by omega)
    · rw [if_neg hneg]
      cases hget : db (env.GetBlockKey i) with
      | none =>
        simp only []
        refine hstep _ ?_
        rintro rfl
        rw [hget] at hb1
        cases hb1
      | some data =>
        cases hd : env.decodeBlock data with
        | none =>
          simp only [hd]
          exact Or.inl trivial
        | some block =>
          simp only [hd]
          refine hstep _ ?_
          rintro rfl
          rw [hget] at hb1
          cases hb1
          rw [hd] at hb2
          cases hb2

theorem heightsFrom_map_get? {α : Type} (f : Int → α) (i : Int) (n k : Nat) (hk : k < n) :
    ((heightsFrom i n).map f).get? k = some (f (i + k)) := by
  rw [List.get?_eq_getElem?, List.getElem?_map, ← List.get?_eq_getElem?, heightsFrom_get? i n k hk]
  rfl

/-- With no overflow in `from - 1` and `to + 1`, a run of `ReadBlocksFromDB` that is
given the fuel for its `to - from + 3` iterations and meets no undecodable slot
returns the slots of the heights `from - 1, ..., to + 1`. -/
theorem ReadBlocksFromDB_ret {Mask : Type} (env : Env Mask) (db : DB) (fuel : Nat)
    (fromInt toInt : Int) (hfrom : minInt < fromInt ∧ fromInt ≤ maxInt)
    (hto : minInt ≤ toInt ∧ toInt < maxInt - 1)
    (hdec : ∀ h, fromInt - 1 ≤ h → h ≤ toInt + 1 → decodeFails env db h = false)
    (hfuel : (toInt - fromInt + 3).toNat < fuel) :
    readRun env db fuel fromInt toInt =
      (Outcome.ret ((heightsFrom (fromInt - 1) (toInt - fromInt + 3).toNat).map (slotAt env db)),
        (heightsFrom (fromInt - 1) (toInt - fromInt + 3).toNat).filter (fun h => decide (0 ≤ h))) := by
  obtain ⟨hf1, hf2⟩ := hfrom
  obtain ⟨ht1, ht2⟩ := hto
  simp only [maxInt, minInt] at hf1 hf2 ht1 ht2
  have hw1 : wrap64 (fromInt - 1) = fromInt - 1 := by apply wrap64_of_range <;> omega
  have hw2 : wrap64 (toInt + 1) = toInt + 1 := by apply wrap64_of_range <;> omega
  unfold readRun
  rw [hw1, hw2]
  by_cases hlen : 0 ≤ toInt - fromInt + 3
  · have := readLoop_ok env db (toInt + 1) (by simp only [maxInt]; omega)
      (toInt - fromInt + 3).toNat fuel (fromInt - 1) { blocks := [], queried := [] }
      (by rw [Int.toNat_of_nonneg hlen]; ring) (by simp only [minInt]; omega)
      (fun h h1 h2 => hdec h h1 h2) hfuel
    simpa using this
  · have h0 : (toInt - fromInt + 3).toNat = 0 := by omega
    obtain ⟨f, rfl⟩ : ∃ f, fuel = f + 1 := ⟨fuel - 1, by omega⟩
    have hnle : ¬ fromInt - 1 ≤ toInt + 1 := by omega
    rw [h0]
    simp [readLoop, hnle, heightsFrom]

/-! ## C3: the window read by ReadBlocksFromDB -/

/-- C3 (amended): for `from` and `to` with no overflow in `from - 1`, `to + 1` and the
loop counter (`-2^63 < from <= 2^63 - 1`, `-2^63 <= to < 2^63 - 2`), every run of
`ReadBlocksFromDB(from, to)` asks storage only for heights `h` with
`max(0, from - 1) <= h <= to + 1`; and when no stored block of the window fails
to decode, a run with the fuel for its iterations returns exactly
`max(0, to - from + 3)` slots, slot `k` holding the block of height
`from - 1 + k`, nil when that height is negative or its key is missing. -/
theorem C3_ReadBlocksFromDB_window {Mask : Type} (env : Env Mask) (db : DB) (fuel : Nat)
    (fromInt toInt : Int) (hfrom : minInt < fromInt ∧ fromInt ≤ maxInt)
    (hto : minInt ≤ toInt ∧ toInt < maxInt - 1) :
    (∀ h ∈ readQueries env db fuel fromInt toInt, max 0 (fromInt - 1) ≤ h ∧ h ≤ toInt + 1) ∧
    ((∀ h, fromInt - 1 ≤ h → h ≤ toInt + 1 → decodeFails env db h = false) →
      (toInt - fromInt + 3).toNat < fuel →
      ∃ blocks, ReadBlocksFromDB env db fuel fromInt toInt = Outcome.ret blocks ∧
        (blocks.length : Int) = max 0 (toInt - fromInt + 3) ∧
        ∀ k : Nat, k < blocks.length →
          blocks.get? k = some (slotAt env db (fromInt - 1 + k)) ∧
          ((fromInt - 1 + k < 0 ∨ db (env.GetBlockKey (fromInt - 1 + k)) = none) →
            blocks.get? k = some none)) := by
  constructor
  · intro h hh
    have hf := hfrom
    have ht := hto
    simp only [maxInt, minInt] at hf ht
    have hw1 : wrap64 (fromInt - 1) = fromInt - 1 := by apply wrap64_of_range <;> omega
    have hw2 : wrap64 (toInt + 1) = toInt + 1 := by apply wrap64_of_range <;> omega
    unfold readQueries readRun at hh
    rw [hw1, hw2] at hh
    have := readLoop_queries env db (toInt + 1) (fromInt - 1) (by simp only [maxInt]; omega)
      (by simp only [minInt]; omega) fuel (fromInt - 1) { blocks := [], queried := [] } le_rfl
      (by intro h hh; cases hh) h hh
    omega
  · intro hdec hfuel
    have hrun := ReadBlocksFromDB_ret env db fuel fromInt toInt hfrom hto hdec hfuel
    refine ⟨_, by unfold ReadBlocksFromDB; rw [hrun], ?_, ?_⟩
    · rw [List.length_map, heightsFrom_length]
      omega
    · intro k hk
      rw [List.length_map, heightsFrom_length] at hk
      have hget := heightsFrom_map_get? (slotAt env db) (fromInt - 1) _ k hk
      refine ⟨hget, ?_⟩
      intro hnil
      rw [hget]
      congr 1
      unfold slotAt
      rcases hnil with hneg | hmiss
      · rw [if_pos hneg]
      · split
        · rfl
        · rw [hmiss]; rfl

/-- C3, witness: the window of `ReadBlocksFromDB(0, 1)` over the sample store. -/
theorem C3_ReadBlocksFromDB_window_witness :
    (minInt < (0 : Int) ∧ (0 : Int) ≤ maxInt) ∧ (minInt ≤ (1 : Int) ∧ (1 : Int) < maxInt - 1) ∧
    (∀ h ∈ readQueries sampleEnv sampleDB 10 0 1, max 0 ((0 : Int) - 1) ≤ h ∧ h ≤ 1 + 1) ∧
    ∃ blocks, ReadBlocksFromDB sampleEnv sampleDB 10 0 1 = Outcome.ret blocks ∧
      (blocks.length : Int) = max 0 ((1 : Int) - 0 + 3) ∧
      ∀ k : Nat, k < blocks.length →
        blocks.get? k = some (slotAt sampleEnv sampleDB ((0 : Int) - 1 + k)) ∧
        (((0 : Int) - 1 + k < 0 ∨ sampleDB (sampleEnv.GetBlockKey ((0 : Int) - 1 + k)) = none) →
          blocks.get? k = some none) :=
  have h1 : minInt < (0 : Int) ∧ (0 : Int) ≤ maxInt := by decide
  have h2 : minInt ≤ (1 : Int) ∧ (1 : Int) < maxInt - 1 := by decide
  have h3 : ∀ h : Int, 0 - 1 ≤ h → h ≤ 1 + 1 → decodeFails sampleEnv sampleDB h = false := by
    intro h ha hb
    have hcases : h = -1 ∨ h = 0 ∨ h = 1 ∨ h = 2 := by omega
    rcases hcases with rfl | rfl | rfl | rfl <;> decide
  ⟨h1, h2, (C3_ReadBlocksFromDB_window sampleEnv sampleDB 10 0 1 h1 h2).1,
    (C3_ReadBlocksFromDB_window sampleEnv sampleDB 10 0 1 h1 h2).2 h3 (by decide)⟩

/-- C3, counterexample: `ReadBlocksFromDB(2^63 - 2, 2^63 - 1)` returns no slot at all,
where the claim counts `to - from + 3 = 4` (the bound `to + 1` wraps to `-2^63`);
and `ReadBlocksFromDB(5, 5)` over a store whose height 5 is not a block returns
no list (the process exits) where the claim counts 3 slots. -/
theorem C3_ReadBlocksFromDB_window_counterexample :
    (ReadBlocksFromDB sampleEnv sampleDB 10 (2 ^ 63 - 2) (2 ^ 63 - 1) = Outcome.ret [] ∧
      max (0 : Int) ((2 ^ 63 - 1) - (2 ^ 63 - 2) + 3) = 4) ∧
    (ReadBlocksFromDB sampleEnv corruptDB 10 5 5 = Outcome.exit 1 ∧
      max (0 : Int) (5 - 5 + 3) = 3) := by
  decide

/-! ## C7: a stored block that fails to decode -/

/-- C7 (amended): in `ReadBlocksFromDB`, with no overflow in `from - 1` and `to + 1`,
when the stored bytes of a non-negative height of the window fail to decode as a
block, no list is returned whatever the fuel: the run ends the process with
`os.Exit(1)` as soon as it has the fuel to reach that height. -/
theorem C7_ReadBlocksFromDB_decode_failure_exits {Mask : Type} (env : Env Mask) (db : DB)
    (fromInt toInt bad : Int) (hfrom : minInt < fromInt ∧ fromInt ≤ maxInt)
    (hto : minInt ≤ toInt ∧ toInt < maxInt - 1)
    (hbad : 0 ≤ bad ∧ fromInt - 1 ≤ bad ∧ bad ≤ toInt + 1)
    (hfails : decodeFails env db bad = true) (fuel : Nat) :
    (∀ blocks, ReadBlocksFromDB env db fuel fromInt toInt ≠ Outcome.ret blocks) ∧
      ((toInt - fromInt + 3).toNat < fuel →
        ReadBlocksFromDB env db fuel fromInt toInt = Outcome.exit 1) := by
  obtain ⟨hf1, hf2⟩ := hfrom
  obtain ⟨ht1, ht2⟩ := hto
  obtain ⟨hb0, hb1, hb2⟩ := hbad
  simp only [maxInt, minInt] at hf1 hf2 ht1 ht2
  have hw1 : wrap64 (fromInt - 1) = fromInt - 1 := by apply wrap64_of_range <;> omega
  have hw2 : wrap64 (toInt + 1) = toInt + 1 := by apply wrap64_of_range <;> omega
  have key := readLoop_exit env db (toInt + 1) (by simp only [maxInt]; omega) bad hb0 hb2
    hfails fuel (fromInt - 1) { blocks := [], queried := [] } (by simp only [minInt]; omega) hb1
  unfold ReadBlocksFromDB readRun
  rw [hw1, hw2]
  constructor
  · intro blocks hret
    rcases key with h | ⟨h, _⟩ <;> rw [h] at hret <;> cases hret
  · intro hfuel
    rcases key with h | ⟨_, h⟩
    · exact h
    · omega

/-- C7, witness: height 1 of the corrupt store inside the window of `(0, 1)`. -/
theorem C7_ReadBlocksFromDB_decode_failure_exits_witness :
    (minInt < (0 : Int) ∧ (0 : Int) ≤ maxInt) ∧ (minInt ≤ (1 : Int) ∧ (1 : Int) < maxInt - 1) ∧
    ((0 : Int) ≤ 1 ∧ (0 : Int) - 1 ≤ 1 ∧ (1 : Int) ≤ 1 + 1) ∧
    decodeFails sampleEnv corruptDB 1 = true ∧
    (∀ blocks, ReadBlocksFromDB sampleEnv corruptDB 10 0 1 ≠ Outcome.ret blocks) ∧
    (((1 : Int) - 0 + 3).toNat < 10 →
      ReadBlocksFromDB sampleEnv corruptDB 10 0 1 = Outcome.exit 1) :=
  ⟨by decide, by decide, by decide, by decide,
    C7_ReadBlocksFromDB_decode_failure_exits sampleEnv corruptDB 0 1 1 (by decide) (by decide)
      (by decide) (by decide) 10⟩

/-- C7, counterexample: the bytes stored for height 1 fail to decode, and
`ReadBlocksFromDB(0, 1)` ends the process with exit code 1 instead of returning
the four slots of heights -1 to 2 with a nil at height 1. -/
theorem C7_ReadBlocksFromDB_decode_failure_counterexample :
    decodeFails sampleEnv corruptDB 1 = true ∧
    ReadBlocksFromDB sampleEnv corruptDB 10 0 1 = Outcome.exit 1 ∧
    ReadBlocksFromDB sampleEnv corruptDB 10 0 1 ≠
      Outcome.ret [none, slotAt sampleEnv corruptDB 0, none, slotAt sampleEnv corruptDB 2] := by
  decide

/-! ## C5: pagination -/

/-- While `i + offset*page` stays below `2^63`, the pagination loop started at `i`
appends the elements at indices `offset*page + i, ...`, at most `offset - i` of
them, and returns. -/
theorem paginateLoop_ok (blocks : List Block) (offset page : Int) (hpage : 0 ≤ page)
    (hoff : offset < 2 ^ 63) (hprod : offset * page < 2 ^ 63)
    (hlen : (blocks.length : Int) < 2 ^ 63) (fuel : Nat) :
    ∀ (i : Int) (acc : List Block), 0 ≤ i → i ≤ offset → i + offset * page < 2 ^ 63 →
      offset - i < fuel →
      paginateLoop blocks offset page fuel i acc =
        Outcome.ret (acc ++ (blocks.drop (offset * page + i).toNat).take (offset - i).toNat) := by
  induction fuel with
  | zero => intro i acc h0 h1 _ hf; simp at hf; omega
  | succ f ih =>
    intro i acc h0 h1 hsum hf
    have hoff0 : 0 ≤ offset := by omega
    have hbase0 : 0 ≤ offset * page := Int.mul_nonneg hoff0 hpage
    have hwb : wrap64 (offset * page) = offset * page := by apply wrap64_of_range <;> omega
    have hwi : wrap64 (i + offset * page) = i + offset * page := by
      apply wrap64_of_range <;> omega
    unfold paginateLoop
    simp only [hwb, hwi]
    by_cases hcond : i < offset ∧ i + offset * page < (blocks.length : Int)
    · obtain ⟨hc1, hc2⟩ := hcond
      rw [if_pos ⟨hc1, hc2⟩]
      have hnn : ¬ (i + offset * page < 0) := by omega
      rw [if_neg hnn]
      have hidx : (i + offset * page).toNat < blocks.length := by omega
      have hw1 : wrap64 (i + 1) = i + 1 := by apply wrap64_of_range <;> omega
      rw [List.get?_eq_getElem?, List.getElem?_eq_getElem hidx]
      simp only [hw1]
      rw [ih (i + 1) _ (by omega) (by omega) (by omega) (by push_cast at hf; omega)]
      congr 1
      have e1 : (offset * page + i).toNat = (i + offset * page).toNat := by
        congr 1; ring
      have e2 : (offset * page + (i + 1)).toNat = (i + offset * page).toNat + 1 := by omega
      have e3 : (offset - i).toNat = (offset - (i + 1)).toNat + 1 := by omega
      rw [e1, e2, e3, List.drop_eq_getElem_cons hidx, List.take_succ_cons]
      simp
    · rw [if_neg hcond]
      congr 1
      have : (blocks.drop (offset * page + i).toNat).take (offset - i).toNat = [] := by
        by_cases hc1 : i < offset
        · have hge : blocks.length ≤ (offset * page + i).toNat := by
            have : ¬ (i + offset * page < (blocks.length : Int)) := fun h => hcond ⟨hc1, h⟩
            omega
          rw [List.drop_eq_nil_of_le hge]
          simp
        · have : (offset - i).toNat = 0 := by omega
          rw [this]
          simp
      rw [this]
      simp

/-- C5 (amended): for every assembled sequence `S` shorter than `2^63`, every
`page >= 0` and every `offset >= 1` with `offset * page < 2^63` (no overflow of
the Go `int` product), the pagination step returns, without error, exactly the
elements of `S` at the original indices `page*offset <= i <
min(page*offset + offset, len S)` in their original order; in particular the
result is empty when `page*offset >= len S`. -/
theorem C5_paginate_slice (S : List Block) (offset page : Int) (hpage : 0 ≤ page)
    (hoffset : 1 ≤ offset ∧ offset < 2 ^ 63) (hprod : offset * page < 2 ^ 63)
    (hlen : (S.length : Int) < 2 ^ 63) :
    ∃ out, paginate S offset page = Outcome.ret out ∧
      out = (S.drop (page * offset).toNat).take offset.toNat ∧
      (out.length : Int) = max 0 (min (page * offset + offset) S.length - page * offset) ∧
      (∀ j : Nat, j < out.length → out.get? j = S.get? ((page * offset).toNat + j)) ∧
      ((S.length : Int) ≤ page * offset → out = []) := by
  obtain ⟨ho1, ho2⟩ := hoffset
  have hbase0 : 0 ≤ page * offset := Int.mul_nonneg hpage (by omega)
  have hcomm : offset * page = page * offset := Int.mul_comm _ _
  have hrun := paginateLoop_ok S offset page hpage ho2 hprod hlen (offset.toNat + 1) 0 []
    le_rfl (by omega) (by omega) (by push_cast; omega)
  simp only [Int.add_zero, Int.sub_zero, List.nil_append, hcomm] at hrun
  refine ⟨_, hrun, rfl, ?_, ?_, ?_⟩
  · rw [List.length_take, List.length_drop]
    omega
  · intro j hj
    rw [List.length_take, List.length_drop] at hj
    rw [List.get?_eq_getElem?, List.get?_eq_getElem?, List.getElem?_take_of_lt (by omega),
      List.getElem?_drop]
  · intro hle
    have : S.length ≤ (page * offset).toNat := by omega
    rw [List.drop_eq_nil_of_le this]
    simp

/-- C5, witness: page 2 with offset 10 of a sequence of 35 records is the records
at the original indices 20 to 29. -/
theorem C5_paginate_slice_witness :
    (0 : Int) ≤ 2 ∧ ((1 : Int) ≤ 10 ∧ (10 : Int) < 2 ^ 63) ∧ (10 : Int) * 2 < 2 ^ 63 ∧
    (sampleRecords.length : Int) < 2 ^ 63 ∧
    ∃ out, paginate sampleRecords 10 2 = Outcome.ret out ∧
      out = (sampleRecords.drop ((2 : Int) * 10).toNat).take (10 : Int).toNat ∧
      out = (sampleRecords.drop 20).take 10 :=
  have h1 : (0 : Int) ≤ 2 := by decide
  have h2 : (1 : Int) ≤ 10 ∧ (10 : Int) < 2 ^ 63 := by decide
  have h3 : (10 : Int) * 2 < 2 ^ 63 := by decide
  have h4 : (sampleRecords.length : Int) < 2 ^ 63 := by decide
  ⟨h1, h2, h3, h4,
    match C5_paginate_slice sampleRecords 10 2 h1 h2 h3 h4 with
    | ⟨out, ho, he, _⟩ => ⟨out, ho, he, he⟩⟩

/-- C5, counterexample: with `offset = 4` and `page = 2^62` the product wraps to 0,
and the page of a one-record sequence is that record, where the claim gives the
empty list (`page*offset = 2^64 >= 1`); with `page = 2^61` the product wraps to
`-2^63` and the step panics on a negative index, where the claim gives the empty
list with no error. -/
theorem C5_paginate_counterexample :
    ((0 : Int) ≤ 2 ^ 62 ∧ (1 : Int) ≤ 4 ∧
      (([NewBlock sampleBlock0 0].length : Nat) : Int) ≤ 2 ^ 62 * 4 ∧
      paginate [NewBlock sampleBlock0 0] 4 (2 ^ 62) = Outcome.ret [NewBlock sampleBlock0 0]) ∧
    ((0 : Int) ≤ 2 ^ 61 ∧
      (([NewBlock sampleBlock0 0].length : Nat) : Int) ≤ 2 ^ 61 * 4 ∧
      paginate [NewBlock sampleBlock0 0] 4 (2 ^ 61) = Outcome.panic) := by
  decide

/-! ## The scan: facts -/

/-- On pairs taken from the window, the loop never panics: it returns the state
reached by applying the loop body to the materialized pairs in order. -/
theorem scanLoop_eq_foldl {Mask : Type} (env : Env Mask) (db : DB) (ShardID : Nat)
    (fromInt : Int) (accountBlocks : List (Option RawBlock)) :
    ∀ (ps : List (Nat × Option RawBlock)) (st : ScanState),
      (∀ p ∈ ps, accountBlocks.get? p.1 = some p.2) →
      scanLoop env db ShardID fromInt accountBlocks ps st =
        Outcome.ret ((ps.filterMap (materializedPair accountBlocks.length)).foldl
          (visit env db ShardID fromInt accountBlocks) st) := by
  intro ps
  induction ps with
  | nil => intro st _; rfl
  | cons p rest ih =>
    intro st hmem
    obtain ⟨id, s⟩ := p
    have hrest := fun st1 => ih st1 (fun q hq => hmem q (List.mem_cons_of_mem _ hq))
    have hp : accountBlocks.get? id = some s := hmem (id, s) (List.mem_cons_self _ _)
    unfold scanLoop
    by_cases hguard : id = 0 ∨ (id : Int) = (accountBlocks.length : Int) - 1
    · rw [if_pos hguard, hrest]
      simp [List.filterMap_cons, materializedPair, hguard]
    · rw [if_neg hguard]
      cases s with
      | none =>
        simp only []
        rw [hrest]
        simp [List.filterMap_cons, materializedPair, hguard]
      | some b =>
        have hlt : id < accountBlocks.length := by
          rw [List.get?_eq_getElem?] at hp
          exact (List.getElem?_eq_some_iff.mp hp).1
        have h1 : id + 1 < accountBlocks.length := by omega
        have h2 : id - 1 < accountBlocks.length := by omega
        have hn : accountBlocks.get? (id + 1) = some (slot accountBlocks (id + 1)) := by
          unfold slot
          rw [List.get?_eq_getElem?, List.getElem?_eq_getElem h1]
          rfl
        have hpv : accountBlocks.get? (id - 1) = some (slot accountBlocks (id - 1)) := by
          unfold slot
          rw [List.get?_eq_getElem?, List.getElem?_eq_getElem h2]
          rfl
        simp only [processBlock, hn, hpv]
        rw [hrest]
        simp [List.filterMap_cons, materializedPair, hguard, visit]

/-- The scan of a window never panics and never runs out of fuel: it returns the
state reached by applying the loop body to the materialized slots in order. -/
theorem scan_eq_foldl {Mask : Type} (env : Env Mask) (db : DB) (ShardID : Nat)
    (fromInt : Int) (accountBlocks : List (Option RawBlock)) :
    scan env db ShardID fromInt accountBlocks =
      Outcome.ret ((materialized accountBlocks).foldl
        (visit env db ShardID fromInt accountBlocks) ScanState.init) := by
  unfold scan materialized
  exact scanLoop_eq_foldl env db ShardID fromInt accountBlocks _ _
    (fun p hp => by simpa [List.get?_eq_getElem?] using List.mem_enum_iff_getElem?.mp hp)

/-- Invariants of the scan: a property of the visited slots and the state that
holds initially and is kept by the loop body holds for the materialized slots
and the final state. -/
theorem foldl_visit_induction {Mask : Type} (env : Env Mask) (db : DB) (ShardID : Nat)
    (fromInt : Int) (accountBlocks : List (Option RawBlock))
    (P : List (Nat × RawBlock) → ScanState → Prop) (st0 : ScanState) (h0 : P [] st0)
    (hstep : ∀ done st p, P done st →
      P (done ++ [p]) (visit env db ShardID fromInt accountBlocks st p))
    (l : List (Nat × RawBlock)) :
    P l (l.foldl (visit env db ShardID fromInt accountBlocks) st0) := by
  induction l using List.reverseRecOn with
  | nil => exact h0
  | append_singleton l p ih =>
    rw [List.foldl_append]
    exact hstep l _ p ih

theorem validTrace_snoc {Mask : Type} (env : Env Mask) (db : DB) (ShardID : Nat)
    (vs : List Visit) (v : Visit) :
    ∀ (e : Int) (c : Committee) (e1 : Int) (c1 : Committee),
      validTrace env db ShardID e c vs e1 c1 → v.epochBefore = e1 → v.committeeBefore = c1 →
      v.follows env db ShardID →
      validTrace env db ShardID e c (vs ++ [v]) v.epochAfter v.committee := by
  induction vs with
  | nil =>
    intro e c e1 c1 h hb hc hf
    obtain ⟨rfl, rfl⟩ := h
    exact ⟨hb, hc, hf, rfl, rfl⟩
  | cons w ws ih =>
    intro e c e1 c1 h hb hc hf
    obtain ⟨h1, h2, h3, h4⟩ := h
    exact ⟨h1, h2, h3, ih _ _ _ _ h4 hb hc hf⟩

/-- The final state of the scan, read off its trace: there is one pass per
materialized slot, in the order of the slots, one record per pass, and the
passes form a valid trace from the initial cache `(-1, Committee{})`. -/
theorem scan_trace {Mask : Type} (env : Env Mask) (db : DB) (ShardID : Nat)
    (fromInt : Int) (accountBlocks : List (Option RawBlock)) :
    ∃ st, scan env db ShardID fromInt accountBlocks = Outcome.ret st ∧
      st.visits.map (fun v => (v.id, v.block)) = materialized accountBlocks ∧
      st.blocks = st.visits.map (Visit.record env fromInt accountBlocks) ∧
      validTrace env db ShardID (-1) Committee.empty st.visits st.curEpoch st.committee := by
  refine ⟨_, scan_eq_foldl env db ShardID fromInt accountBlocks, ?_⟩
  refine foldl_visit_induction env db ShardID fromInt accountBlocks
    (fun done st => st.visits.map (fun v => (v.id, v.block)) = done ∧
      st.blocks = st.visits.map (Visit.record env fromInt accountBlocks) ∧
      validTrace env db ShardID (-1) Committee.empty st.visits st.curEpoch st.committee)
    ScanState.init ⟨rfl, rfl, rfl, rfl⟩ ?_ (materialized accountBlocks)
  rintro done st ⟨id, b⟩ ⟨h1, h2, h3⟩
  refine ⟨?_, ?_, ?_⟩
  · simp [visit, applyBlock, h1]
  · simp [visit, applyBlock, h2, Visit.record]
  · have hsnoc := validTrace_snoc env db ShardID st.visits
      { id := id, block := b, epochBefore := st.curEpoch, committeeBefore := st.committee,
        resolved := decide (int64OfUint64 b.Epoch > st.curEpoch),
        committee :=
          if decide (int64OfUint64 b.Epoch > st.curEpoch) = true then
            resolveCommittee env db ShardID b b.Epoch st.committee
          else st.committee }
      _ _ _ _ h3 rfl rfl ⟨rfl, rfl⟩
    simpa only [visit, applyBlock, Visit.epochAfter, NewBlock] using hsnoc

/-! ## C1: signers come from the bitmap of the next slot -/

/-- The list built by lines 272-282 is the list of the display addresses of the
validators whose key is enabled in the mask, in the order of the committee. -/
theorem enabledSigners_eq_filter {Mask : Type} (env : Env Mask) (mask : Mask)
    (nodes : List NodeID) :
    enabledSigners env mask nodes =
      (nodes.filter (fun validator =>
        env.KeyEnabled mask (env.toLibKey validator.BlsPublicKey) == some true)).filterMap
        (fun validator => env.AddressToBech32 validator.EcdsaAddress) := by
  induction nodes with
  | nil => rfl
  | cons validator rest ih =>
    unfold enabledSigners at ih ⊢
    simp only [List.filterMap_cons, List.filter_cons]
    cases hkey : env.KeyEnabled mask (env.toLibKey validator.BlsPublicKey) with
    | none =>
      have hne : ((none : Option Bool) == some true) = false := rfl
      rw [hne]
      cases haddr : env.AddressToBech32 validator.EcdsaAddress <;> simpa using ih
    | some enabled =>
      cases enabled with
      | false =>
        have hne : ((some false : Option Bool) == some true) = false := rfl
        rw [hne]
        cases haddr : env.AddressToBech32 validator.EcdsaAddress <;> simpa using ih
      | true =>
        have heq : ((some true : Option Bool) == some true) = true := rfl
        rw [heq]
        simp only [if_true, List.filterMap_cons]
        cases haddr : env.AddressToBech32 validator.EcdsaAddress <;> simpa using ih

/-- C1: for every window, the scan of `GetExplorerBlocks` returns, with one pass and
one record per materialized slot in slot order, and the signer list of the
record of slot `id` is decoded from slot `id+1`. It is empty when slot `id+1` is
nil, when no mask can be built over the keys of the cached committee, or when
`SetMask` rejects the `LastCommitBitmap` of the block in slot `id+1`. Otherwise
it is exactly the list of the display addresses of the validators of the cached
committee, in committee order, whose key is enabled in the mask that `SetMask`
makes of the `LastCommitBitmap` of the block in slot `id+1`. The bitmap of the
block's own header plays no part: the signer list is the same whatever that
bitmap is. -/
theorem C1_signers_from_next_slot {Mask : Type} (env : Env Mask) (db : DB) (ShardID : Nat)
    (fromInt : Int) (accountBlocks : List (Option RawBlock)) :
    ∃ st, scan env db ShardID fromInt accountBlocks = Outcome.ret st ∧
      st.visits.map (fun v => (v.id, v.block)) = materialized accountBlocks ∧
      st.blocks = st.visits.map (Visit.record env fromInt accountBlocks) ∧
      ∀ v ∈ st.visits,
        (slot accountBlocks (v.id + 1) = none →
          (v.record env fromInt accountBlocks).Signers = []) ∧
        (env.NewMask (v.committee.NodeList.map
            (fun validator => env.toLibKey validator.BlsPublicKey)) = none →
          (v.record env fromInt accountBlocks).Signers = []) ∧
        (∀ nextBlock mask0, slot accountBlocks (v.id + 1) = some nextBlock →
          env.NewMask (v.committee.NodeList.map
            (fun validator => env.toLibKey validator.BlsPublicKey)) = some mask0 →
          (env.SetMask mask0 nextBlock.LastCommitBitmap = none →
            (v.record env fromInt accountBlocks).Signers = []) ∧
          (∀ mask, env.SetMask mask0 nextBlock.LastCommitBitmap = some mask →
            (v.record env fromInt accountBlocks).Signers =
              (v.committee.NodeList.filter (fun validator =>
                env.KeyEnabled mask (env.toLibKey validator.BlsPublicKey) == some true)).filterMap
                (fun validator => env.AddressToBech32 validator.EcdsaAddress))) ∧
        (∀ bitmap,
          (buildRecord env fromInt v.committee v.id (v.block.withBitmap bitmap)
            (slot accountBlocks (v.id + 1)) (slot accountBlocks (v.id - 1))).Signers =
          (v.record env fromInt accountBlocks).Signers) := by
  obtain ⟨st, hst, hv, hb, _⟩ := scan_trace env db ShardID fromInt accountBlocks
  refine ⟨st, hst, hv, hb, ?_⟩
  intro v _
  have hs : (v.record env fromInt accountBlocks).Signers =
      decodeSigners env v.committee (slot accountBlocks (v.id + 1)) := by
    simp [Visit.record, buildRecord, NewBlock]
  refine ⟨?_, ?_, ?_, ?_⟩
  · intro hnil
    rw [hs, hnil]
    unfold decodeSigners
    cases env.NewMask (committeeKeys env v.committee) <;> rfl
  · intro hnew
    rw [hs]
    unfold decodeSigners committeeKeys
    rw [hnew]
  · intro nextBlock mask0 hnext hnew
    rw [hs, hnext]
    unfold decodeSigners committeeKeys signersOfBitmap
    rw [hnew]
    constructor
    · intro hset
      simp only [hset]
    · intro mask hset
      simp only [hset]
      exact enabledSigners_eq_filter env mask v.committee.NodeList
  · intro bitmap
    rw [hs]
    simp [buildRecord, NewBlock]

/-- C1, witness: over the sample store the block of height 1 carries the bitmap `[1]`
(validator 0) and the block after it the bitmap `[2]` (validator 1); the signer
list of the record of height 1 is the address of validator 1 of the committee of
epoch 0, `one8`, and not `one7`; the one of height 2, read off the bitmap `[1]`
of the block of height 3, is the address of validator 0 of the committee of
epoch 1. -/
theorem C1_signers_from_next_slot_witness :
    sampleBlock1.LastCommitBitmap = [1] ∧ sampleBlock2.LastCommitBitmap = [2] ∧
    sampleBlock3.LastCommitBitmap = [1] ∧
    committeeAddresses sampleEnv sampleCommittee0 = ["one7", "one8"] ∧
    committeeAddresses sampleEnv sampleCommittee1 = ["one9"] ∧
    ((scan sampleEnv sampleDBFull 0 1 sampleWindow).returned.map
      (fun st => st.blocks.map (fun b => (b.Height, b.Signers)))) =
      some [("1", ["one8"]), ("2", ["one9"])] ∧
    ∃ st, scan sampleEnv sampleDBFull 0 1 sampleWindow = Outcome.ret st ∧
      st.blocks = st.visits.map (Visit.record sampleEnv 1 sampleWindow) ∧
      ∀ v ∈ st.visits, ∀ bitmap,
        (buildRecord sampleEnv 1 v.committee v.id (v.block.withBitmap bitmap)
          (slot sampleWindow (v.id + 1)) (slot sampleWindow (v.id - 1))).Signers =
        (v.record sampleEnv 1 sampleWindow).Signers :=
  ⟨by decide, by decide, by decide, by decide, by decide, by decide,
    match C1_signers_from_next_slot sampleEnv sampleDBFull 0 1 sampleWindow with
    | ⟨st, hst, _, hb, h⟩ => ⟨st, hst, hb, fun v hv => (h v hv).2.2.2⟩⟩

/-! ## C6: a malformed bitmap empties the signer list only -/

/-- The fields of a record other than the signer list do not depend on the commit
bitmap of the next slot. -/
theorem buildRecord_withoutSigners {Mask : Type} (env : Env Mask) (fromInt : Int)
    (committee : Committee) (id : Nat) (accountBlock : RawBlock) (next prev : Option RawBlock)
    (bitmap : Bytes) :
    (buildRecord env fromInt committee id accountBlock
        (next.map (fun nb => nb.withBitmap bitmap)) prev).withoutSigners =
      (buildRecord env fromInt committee id accountBlock next prev).withoutSigners := by
  cases next <;> rfl

/-- C6: for every window the scan returns with one record per materialized slot,
whatever the bitmaps. When mask construction over the committee keys fails, or
the next slot holds a block whose bitmap `SetMask` rejects, the record of the
slot has an empty signer list; and its other fields (height, hash, epoch,
transactions, block time, prevRef, nextRef) are those of the record built with
any other bitmap in the next slot. -/
theorem C6_malformed_bitmap_empty_signers {Mask : Type} (env : Env Mask) (db : DB)
    (ShardID : Nat) (fromInt : Int) (accountBlocks : List (Option RawBlock)) :
    ∃ st, scan env db ShardID fromInt accountBlocks = Outcome.ret st ∧
      st.visits.map (fun v => (v.id, v.block)) = materialized accountBlocks ∧
      st.blocks = st.visits.map (Visit.record env fromInt accountBlocks) ∧
      ∀ v ∈ st.visits,
        (env.NewMask (committeeKeys env v.committee) = none →
          (v.record env fromInt accountBlocks).Signers = []) ∧
        (∀ nextBlock mask, slot accountBlocks (v.id + 1) = some nextBlock →
          env.NewMask (committeeKeys env v.committee) = some mask →
          env.SetMask mask nextBlock.LastCommitBitmap = none →
          (v.record env fromInt accountBlocks).Signers = []) ∧
        (∀ bitmap,
          (v.record env fromInt accountBlocks).withoutSigners =
            (buildRecord env fromInt v.committee v.id v.block
              ((slot accountBlocks (v.id + 1)).map (fun nb => nb.withBitmap bitmap))
              (slot accountBlocks (v.id - 1))).withoutSigners) := by
  obtain ⟨st, hst, hv, hb, _⟩ := scan_trace env db ShardID fromInt accountBlocks
  refine ⟨st, hst, hv, hb, ?_⟩
  intro v _
  have hs : (v.record env fromInt accountBlocks).Signers =
      decodeSigners env v.committee (slot accountBlocks (v.id + 1)) := by
    simp [Visit.record, buildRecord, NewBlock]
  refine ⟨?_, ?_, ?_⟩
  · intro hnew
    rw [hs]
    unfold decodeSigners
    rw [hnew]
  · intro nextBlock mask hnext hmask hset
    rw [hs, hnext]
    unfold decodeSigners signersOfBitmap
    rw [hmask]
    simp only [hset]
  · intro bitmap
    exact (buildRecord_withoutSigners env fromInt v.committee v.id v.block _ _ bitmap).symm

/-- With no validators in the committee, no signer is decoded. -/
theorem decodeSigners_nil {Mask : Type} (env : Env Mask) (committee : Committee)
    (next : Option RawBlock) (h : committee.NodeList = []) :
    decodeSigners env committee next = [] := by
  unfold decodeSigners
  cases env.NewMask (committeeKeys env committee) with
  | none => rfl
  | some mask =>
    cases next with
    | none => rfl
    | some nb =>
      simp only [signersOfBitmap, enabledSigners, h]
      cases env.SetMask mask nb.LastCommitBitmap <;> rfl

/-- The first pass of a valid trace starts from the cache the trace starts from. -/
theorem validTrace_head {Mask : Type} (env : Env Mask) (db : DB) (ShardID : Nat) (e : Int)
    (c : Committee) (vs : List Visit) (e1 : Int) (c1 : Committee)
    (h : validTrace env db ShardID e c vs e1 c1) (v : Visit) (hv : vs.head? = some v) :
    v.epochBefore = e ∧ v.committeeBefore = c := by
  cases vs with
  | nil => cases hv
  | cons w ws =>
    simp only [List.head?_cons, Option.some.injEq] at hv
    subst hv
    exact ⟨h.1, h.2.1⟩

/-- Every pass of a valid trace follows the loop body. -/
theorem validTrace_follows {Mask : Type} (env : Env Mask) (db : DB) (ShardID : Nat)
    (vs : List Visit) :
    ∀ (e : Int) (c : Committee) (e1 : Int) (c1 : Committee),
      validTrace env db ShardID e c vs e1 c1 → ∀ v ∈ vs, v.follows env db ShardID := by
  induction vs with
  | nil => intro _ _ _ _ _ v hv; cases hv
  | cons w ws ih =>
    intro e c e1 c1 h v hv
    rcases List.mem_cons.mp hv with rfl | hv
    · exact h.2.2.1
    · exact ih _ _ _ _ h.2.2.2 v hv

/-! ## C8: nothing found by the committee lookup -/

/-- C8 (amended): whenever the scan re-resolves the committee for a block's epoch, the
persisted committee record for `(ShardID, epoch)` is missing, and the shard
state of the block's header cannot be read or has no entry for the block's
shard, the committee is left as it was before the lookup. It has zero
validators, and the signer list of the block is empty, when the cache held no
validators before, as it does on the first pass of a scan; otherwise the
committee resolved earlier stays in use. -/
theorem C8_lookup_finds_nothing {Mask : Type} (env : Env Mask) (db : DB) (ShardID : Nat)
    (fromInt : Int) (accountBlocks : List (Option RawBlock)) :
    ∃ st, scan env db ShardID fromInt accountBlocks = Outcome.ret st ∧
      st.blocks = st.visits.map (Visit.record env fromInt accountBlocks) ∧
      (∀ v, st.visits.head? = some v →
        v.epochBefore = -1 ∧ v.committeeBefore = Committee.empty) ∧
      ∀ v ∈ st.visits, v.resolved = true →
        db (env.GetCommitteeKey ShardID v.block.Epoch) = none →
        (v.block.ShardState = none ∨
          ∃ state, v.block.ShardState = some state ∧
            ∀ c ∈ state, c.ShardID ≠ v.block.ShardID) →
        v.committee = v.committeeBefore ∧
        (v.committeeBefore.NodeList = [] →
          v.committee.NodeList = [] ∧ (v.record env fromInt accountBlocks).Signers = []) := by
  obtain ⟨st, hst, _, hb, htrace⟩ := scan_trace env db ShardID fromInt accountBlocks
  refine ⟨st, hst, hb, ?_, ?_⟩
  · intro v hv
    exact validTrace_head env db ShardID _ _ _ _ _ htrace v hv
  · intro v hv hres hmiss hstate
    have hf := (validTrace_follows env db ShardID _ _ _ _ _ htrace v hv).2
    rw [hres, if_pos rfl] at hf
    have hkeep : v.committee = v.committeeBefore := by
      rw [hf]
      unfold resolveCommittee
      rw [hmiss]
      rcases hstate with hnone | ⟨state, hsome, hno⟩
      · rw [hnone]
      · rw [hsome]
        have hfind : state.find? (fun shardCommittee =>
            shardCommittee.ShardID == v.block.ShardID) = none := by
          rw [List.find?_eq_none]
          intro c hc
          simpa using hno c hc
        simp only [hfind]
    refine ⟨hkeep, ?_⟩
    intro hnil
    have hnil2 : v.committee.NodeList = [] := by rw [hkeep]; exact hnil
    refine ⟨hnil2, ?_⟩
    have hs : (v.record env fromInt accountBlocks).Signers =
        decodeSigners env v.committee (slot accountBlocks (v.id + 1)) := by
      simp [Visit.record, buildRecord, NewBlock]
    rw [hs]
    exact decodeSigners_nil env v.committee _ hnil2

/-- C8, counterexample: in the window of heights 0 to 3 over the sample store, the
block of height 2 is the first of epoch 1; the lookup runs, the record for
`(0, 1)` is missing and the header has no shard state, yet the committee in use
is the one of epoch 0 with its two validators, and the signer list is not
empty. -/
theorem C8_lookup_finds_nothing_counterexample :
    sampleDB (sampleEnv.GetCommitteeKey 0 sampleBlock2.Epoch) = none ∧
    sampleBlock2.ShardState = none ∧
    ((scan sampleEnv sampleDB 0 1
        [some sampleBlock0, some sampleBlock1, some sampleBlock2, some sampleBlock3]).returned.map
      (fun st => st.visits.map (fun v => (v.block, v.resolved, v.committee)))) =
      some [(sampleBlock1, true, sampleCommittee0), (sampleBlock2, true, sampleCommittee0)] ∧
    ((scan sampleEnv sampleDB 0 1
        [some sampleBlock0, some sampleBlock1, some sampleBlock2, some sampleBlock3]).returned.map
      (fun st => st.blocks.map (fun b => b.Signers))) = some [["one8"], ["one7"]] := by
  decide

/-! ## C9: a committee record that fails to decode -/

/-- C9 (amended): whenever the scan re-resolves the committee and the persisted
committee record for `(ShardID, epoch)` exists, the committee becomes what
`rlp.DecodeBytes` leaves in a fresh committee, also when decoding fails: the
shard state of the block header is not consulted. The scan is not aborted. -/
theorem C9_record_exists_no_fallback {Mask : Type} (env : Env Mask) (db : DB) (ShardID : Nat)
    (fromInt : Int) (accountBlocks : List (Option RawBlock)) :
    ∃ st, scan env db ShardID fromInt accountBlocks = Outcome.ret st ∧
      st.visits.map (fun v => (v.id, v.block)) = materialized accountBlocks ∧
      st.blocks = st.visits.map (Visit.record env fromInt accountBlocks) ∧
      ∀ v ∈ st.visits, v.resolved = true →
        ∀ bytes, db (env.GetCommitteeKey ShardID v.block.Epoch) = some bytes →
          v.committee = (env.decodeCommittee bytes).value := by
  obtain ⟨st, hst, hv, hb, htrace⟩ := scan_trace env db ShardID fromInt accountBlocks
  refine ⟨st, hst, hv, hb, ?_⟩
  intro v hv hres bytes hbytes
  have hf := (validTrace_follows env db ShardID _ _ _ _ _ htrace v hv).2
  rw [hres, if_pos rfl] at hf
  rw [hf]
  unfold resolveCommittee
  rw [hbytes]

/-- C9, counterexample: the record for `(0, 1)` exists and fails to decode, and the
header of the block of epoch 1 carries a shard state whose entry for shard 0 is
the committee of epoch 1; the committee in use after the lookup is the empty
one left by the decoder, not that entry, and no signer is reported. -/
theorem C9_record_exists_no_fallback_counterexample :
    corruptCommitteeDB (sampleEnv.GetCommitteeKey 0 sampleBlock2State.Epoch) = some [99] ∧
    (sampleEnv.decodeCommittee [99]).ok = false ∧
    sampleBlock2State.ShardState = some [sampleCommittee1] ∧
    sampleCommittee1.ShardID = sampleBlock2State.ShardID ∧
    ((scan sampleEnv corruptCommitteeDB 0 1
        [some sampleBlock1, some sampleBlock2State, some sampleBlock3]).returned.map
      (fun st => st.visits.map (fun v => (v.block, v.resolved, v.committee)))) =
      some [(sampleBlock2State, true, Committee.empty)] ∧
    Committee.empty ≠ sampleCommittee1 ∧
    ((scan sampleEnv corruptCommitteeDB 0 1
        [some sampleBlock1, some sampleBlock2State, some sampleBlock3]).returned.map
      (fun st => st.blocks.map (fun b => b.Signers))) = some [[]] ∧
    decodeSigners sampleEnv sampleCommittee1 (some sampleBlock3) = ["one9"] := by
  decide

/-! ## The committee cache along a scan in non-decreasing epoch order -/

/-- A pass on a block whose epoch is below `2^63` and not below `curEpoch` leaves
`curEpoch` equal to that epoch, and its lookup runs exactly when the epoch is
new. -/
theorem Visit.epochAfter_of_le {Mask : Type} (env : Env Mask) (db : DB) (ShardID : Nat)
    (v : Visit) (hf : v.follows env db ShardID) (hlt : v.block.Epoch < 2 ^ 63)
    (hle : v.epochBefore ≤ (v.block.Epoch : Int)) :
    v.epochAfter = (v.block.Epoch : Int) ∧
      (v.resolved = true ↔ v.epochBefore < (v.block.Epoch : Int)) ∧
      (v.resolved = false → v.committee = v.committeeBefore) := by
  obtain ⟨h1, h2⟩ := hf
  rw [int64OfUint64_of_lt _ hlt] at h1
  unfold Visit.epochAfter
  rw [int64OfUint64_of_lt _ hlt]
  by_cases hgt : v.epochBefore < (v.block.Epoch : Int)
  · have hr : v.resolved = true := by rw [h1]; exact decide_eq_true hgt
    rw [hr]
    simp [hgt]
  · have hr : v.resolved = false := by rw [h1]; exact decide_eq_false (by omega)
    rw [hr] at h2
    rw [hr]
    simp only [Bool.false_eq_true, if_false] at h2 ⊢
    exact ⟨by omega, by simp [hgt], fun _ => h2⟩

/-- Along a valid trace in non-decreasing epoch order, the lookups made and the
start epoch, if it is met again, add up to the distinct epochs of the trace. -/
theorem validTrace_lookups {Mask : Type} (env : Env Mask) (db : DB) (ShardID : Nat)
    (vs : List Visit) :
    ∀ (e : Int) (c : Committee) (e1 : Int) (c1 : Committee),
      validTrace env db ShardID e c vs e1 c1 →
      (∀ v ∈ vs, v.block.Epoch < 2 ^ 63) →
      (vs.map (fun v => v.block.Epoch)).Pairwise (fun a b => a ≤ b) →
      (∀ v ∈ vs, e ≤ (v.block.Epoch : Int)) →
      (vs.filter (fun v => v.resolved)).length +
          (if ∃ v ∈ vs, (v.block.Epoch : Int) = e then 1 else 0) =
        (vs.map (fun v => v.block.Epoch)).dedup.length := by
  induction vs with
  | nil => intro e c e1 c1 _ _ _ _; simp
  | cons v rest ih =>
    intro e c e1 c1 h hlt hsorted hlow
    obtain ⟨hb, _, hf, hrest⟩ := h
    have hv := Visit.epochAfter_of_le env db ShardID v hf (hlt v (List.mem_cons_self _ _))
      (by rw [hb]; exact hlow v (List.mem_cons_self _ _))
    obtain ⟨hafter, hres, _⟩ := hv
    rw [hb] at hres
    simp only [List.map_cons, List.pairwise_cons, List.mem_map, forall_exists_index,
      and_imp, forall_apply_eq_imp_iff₂] at hsorted
    obtain ⟨hhead, htail⟩ := hsorted
    have hih := ih v.epochAfter v.committee e1 c1 hrest
      (fun w hw => hlt w (List.mem_cons_of_mem _ hw)) htail
      (fun w hw => by rw [hafter]; exact_mod_cast hhead w hw)
    have hmem : (∃ w ∈ rest, (w.block.Epoch : Int) = v.epochAfter) ↔
        v.block.Epoch ∈ rest.map (fun w => w.block.Epoch) := by
      rw [hafter]
      simp only [List.mem_map]
      constructor
      · rintro ⟨w, hw, he⟩
        exact ⟨w, hw, by exact_mod_cast he⟩
      · rintro ⟨w, hw, he⟩
        exact ⟨w, hw, by exact_mod_cast he⟩
    have hlow0 := hlow v (List.mem_cons_self _ _)
    have hex : (∃ w ∈ v :: rest, (w.block.Epoch : Int) = e) ↔ (v.block.Epoch : Int) = e := by
      constructor
      · rintro ⟨w, hw, he⟩
        rcases List.mem_cons.mp hw with rfl | hw
        · exact he
        · have := hhead w hw
          have h2 : ((v.block.Epoch : Nat) : Int) ≤ (w.block.Epoch : Int) := by exact_mod_cast this
          omega
      · intro he
        exact ⟨v, List.mem_cons_self _ _, he⟩
    simp only [List.map_cons, List.filter_cons]
    by_cases hin : v.block.Epoch ∈ rest.map (fun w => w.block.Epoch)
    · rw [List.dedup_cons_of_mem hin]
      rw [if_pos (hmem.mpr hin)] at hih
      by_cases heq : (v.block.Epoch : Int) = e
      · have hr : v.resolved = false := by
          cases hvr : v.resolved with
          | false => rfl
          | true => have := hres.mp hvr; omega
        rw [if_pos (hex.mpr heq), hr]
        simpa using hih
      · have hr : v.resolved = true := hres.mpr (by omega)
        rw [if_neg (fun h => heq (hex.mp h)), hr]
        simpa using hih
    · rw [List.dedup_cons_of_not_mem hin]
      rw [if_neg (fun h => hin (hmem.mp h))] at hih
      by_cases heq : (v.block.Epoch : Int) = e
      · have hr : v.resolved = false := by
          cases hvr : v.resolved with
          | false => rfl
          | true => have := hres.mp hvr; omega
        rw [if_pos (hex.mpr heq), hr]
        simp only [List.length_cons]
        simpa using hih
      · have hr : v.resolved = true := hres.mpr (by omega)
        rw [if_neg (fun h => heq (hex.mp h)), hr]
        simp only [List.length_cons]
        simpa using hih

/-- Along a valid trace in non-decreasing epoch order, a pass on a block of the
start epoch uses the start committee, and two passes on blocks of one epoch use
the same committee. -/
theorem validTrace_same_committee {Mask : Type} (env : Env Mask) (db : DB) (ShardID : Nat)
    (vs : List Visit) :
    ∀ (e : Int) (c : Committee) (e1 : Int) (c1 : Committee),
      validTrace env db ShardID e c vs e1 c1 →
      (∀ v ∈ vs, v.block.Epoch < 2 ^ 63) →
      (vs.map (fun v => v.block.Epoch)).Pairwise (fun a b => a ≤ b) →
      (∀ v ∈ vs, e ≤ (v.block.Epoch : Int)) →
      (∀ v ∈ vs, (v.block.Epoch : Int) = e → v.committee = c) ∧
        vs.Pairwise (fun v w => v.block.Epoch = w.block.Epoch → v.committee = w.committee) := by
  induction vs with
  | nil => intro e c e1 c1 _ _ _ _; simp
  | cons v rest ih =>
    intro e c e1 c1 h hlt hsorted hlow
    obtain ⟨hb, hcb, hf, hrest⟩ := h
    obtain ⟨hafter, hres, hkeep⟩ := Visit.epochAfter_of_le env db ShardID v hf
      (hlt v (List.mem_cons_self _ _)) (by rw [hb]; exact hlow v (List.mem_cons_self _ _))
    rw [hb] at hres
    simp only [List.map_cons, List.pairwise_cons, List.mem_map, forall_exists_index,
      and_imp, forall_apply_eq_imp_iff₂] at hsorted
    obtain ⟨hhead, htail⟩ := hsorted
    obtain ⟨ih1, ih2⟩ := ih v.epochAfter v.committee e1 c1 hrest
      (fun w hw => hlt w (List.mem_cons_of_mem _ hw)) htail
      (fun w hw => by rw [hafter]; exact_mod_cast hhead w hw)
    have hstart : (v.block.Epoch : Int) = e → v.committee = c := by
      intro he
      have hr : v.resolved = false := by
        cases hvr : v.resolved with
        | false => rfl
        | true => have := hres.mp hvr; omega
      rw [hkeep hr, hcb]
    constructor
    · intro w hw he
      rcases List.mem_cons.mp hw with rfl | hw
      · exact hstart he
      · have h1 := hhead w hw
        have h2 : ((v.block.Epoch : Nat) : Int) ≤ (w.block.Epoch : Int) := by exact_mod_cast h1
        have h3 := hlow v (List.mem_cons_self _ _)
        have hve : (v.block.Epoch : Int) = e := by omega
        rw [ih1 w hw (by rw [hafter]; omega)]
        exact hstart hve
    · rw [List.pairwise_cons]
      refine ⟨?_, ih2⟩
      intro w hw he
      exact (ih1 w hw (by rw [hafter]; exact_mod_cast he.symm)).symm

/-- Along a valid trace in non-decreasing epoch order, a pass on a block whose
committee record exists uses the committee decoded from that record. -/
theorem validTrace_persisted {Mask : Type} (env : Env Mask) (db : DB) (ShardID : Nat)
    (vs : List Visit) :
    ∀ (e : Int) (c : Committee) (e1 : Int) (c1 : Committee),
      validTrace env db ShardID e c vs e1 c1 →
      (∀ v ∈ vs, v.block.Epoch < 2 ^ 63) →
      (vs.map (fun v => v.block.Epoch)).Pairwise (fun a b => a ≤ b) →
      (∀ v ∈ vs, e ≤ (v.block.Epoch : Int)) →
      (∀ v ∈ vs, (v.block.Epoch : Int) = e → ∀ bytes,
        db (env.GetCommitteeKey ShardID v.block.Epoch) = some bytes →
        c = (env.decodeCommittee bytes).value) →
      ∀ v ∈ vs, ∀ bytes, db (env.GetCommitteeKey ShardID v.block.Epoch) = some bytes →
        v.committee = (env.decodeCommittee bytes).value := by
  induction vs with
  | nil => intro _ _ _ _ _ _ _ _ _ v hv; cases hv
  | cons v rest ih =>
    intro e c e1 c1 h hlt hsorted hlow hstart
    obtain ⟨hb, hcb, hf, hrest⟩ := h
    obtain ⟨hafter, hres, hkeep⟩ := Visit.epochAfter_of_le env db ShardID v hf
      (hlt v (List.mem_cons_self _ _)) (by rw [hb]; exact hlow v (List.mem_cons_self _ _))
    rw [hb] at hres
    simp only [List.map_cons, List.pairwise_cons, List.mem_map, forall_exists_index,
      and_imp, forall_apply_eq_imp_iff₂] at hsorted
    obtain ⟨hhead, htail⟩ := hsorted
    have hvown : ∀ bytes, db (env.GetCommitteeKey ShardID v.block.Epoch) = some bytes →
        v.committee = (env.decodeCommittee bytes).value := by
      intro bytes hbytes
      cases hvr : v.resolved with
      | true =>
        have h2 := hf.2
        rw [hvr, if_pos rfl] at h2
        rw [h2]
        unfold resolveCommittee
        rw [hbytes]
      | false =>
        have hne : ¬ (e < (v.block.Epoch : Int)) := by
          intro hlt2
          have := hres.mpr hlt2
          rw [hvr] at this
          cases this
        have hle := hlow v (List.mem_cons_self _ _)
        rw [hkeep hvr, hcb]
        exact hstart v (List.mem_cons_self _ _) (by omega) bytes hbytes
    intro w hw bytes hbytes
    rcases List.mem_cons.mp hw with rfl | hw
    · exact hvown bytes hbytes
    · refine ih v.epochAfter v.committee e1 c1 hrest
        (fun u hu => hlt u (List.mem_cons_of_mem _ hu)) htail
        (fun u hu => by rw [hafter]; exact_mod_cast hhead u hu) ?_ w hw bytes hbytes
      intro u _ hue bytes2 hbytes2
      have huv : u.block.Epoch = v.block.Epoch := by
        rw [hafter] at hue
        exact_mod_cast hue
      rw [huv] at hbytes2
      exact hvown bytes2 hbytes2

/-! ## C10: when the committee is looked up -/

/-- C10 (amended): in one scan the passes form a valid trace from the cache
`(-1, Committee{})`: the committee is looked up at a materialized block if and
only if the block's epoch, converted to `int64`, is greater than `curEpoch`,
after which `curEpoch` is that value; without a lookup cache and committee stay
as they were. When the epochs of the materialized blocks are below `2^63` the
first materialized block always resolves; when moreover they are visited in
non-decreasing order, the number of lookups equals the number of distinct epochs
among the materialized blocks, and two materialized blocks of the same epoch are
decoded against the same committee. -/
theorem C10_committee_cache {Mask : Type} (env : Env Mask) (db : DB) (ShardID : Nat)
    (fromInt : Int) (accountBlocks : List (Option RawBlock)) :
    ∃ st, scan env db ShardID fromInt accountBlocks = Outcome.ret st ∧
      st.visits.map (fun v => (v.id, v.block)) = materialized accountBlocks ∧
      validTrace env db ShardID (-1) Committee.empty st.visits st.curEpoch st.committee ∧
      (∀ v ∈ st.visits,
        (v.resolved = true ↔ int64OfUint64 v.block.Epoch > v.epochBefore) ∧
        (v.resolved = true → v.epochAfter = int64OfUint64 v.block.Epoch) ∧
        (v.resolved = false → v.epochAfter = v.epochBefore ∧ v.committee = v.committeeBefore)) ∧
      ((∀ p ∈ materialized accountBlocks, p.2.Epoch < 2 ^ 63) →
        (∀ v, st.visits.head? = some v → v.resolved = true) ∧
        (((materialized accountBlocks).map (fun p => p.2.Epoch)).Pairwise (fun a b => a ≤ b) →
          (st.visits.filter (fun v => v.resolved)).length =
            ((materialized accountBlocks).map (fun p => p.2.Epoch)).dedup.length ∧
          ∀ v ∈ st.visits, ∀ w ∈ st.visits,
            v.block.Epoch = w.block.Epoch → v.committee = w.committee)) := by
  obtain ⟨st, hst, hv, _, htrace⟩ := scan_trace env db ShardID fromInt accountBlocks
  refine ⟨st, hst, hv, htrace, ?_, ?_⟩
  · intro v hvm
    obtain ⟨h1, h2⟩ := validTrace_follows env db ShardID _ _ _ _ _ htrace v hvm
    refine ⟨?_, ?_, ?_⟩
    · rw [h1]
      simp
    · intro hr
      simp [Visit.epochAfter, hr]
    · intro hr
      rw [hr] at h2
      exact ⟨by simp [Visit.epochAfter, hr], by simpa using h2⟩
  · intro hlt
    have hepochs : (materialized accountBlocks).map (fun p => p.2.Epoch) =
        st.visits.map (fun v => v.block.Epoch) := by
      rw [← hv, List.map_map]
      rfl
    have hlt2 : ∀ v ∈ st.visits, v.block.Epoch < 2 ^ 63 := by
      intro v hvm
      have : (v.id, v.block) ∈ materialized accountBlocks := by
        rw [← hv]
        exact List.mem_map_of_mem _ hvm
      exact hlt _ this
    have hlow : ∀ v ∈ st.visits, (-1 : Int) ≤ (v.block.Epoch : Int) := by
      intro v _
      omega
    constructor
    · intro v hhead
      obtain ⟨hb, _⟩ := validTrace_head env db ShardID _ _ _ _ _ htrace v hhead
      have hvm : v ∈ st.visits := List.mem_of_mem_head? hhead
      have hf := validTrace_follows env db ShardID _ _ _ _ _ htrace v hvm
      have := (Visit.epochAfter_of_le env db ShardID v hf (hlt2 v hvm)
        (by rw [hb]; omega)).2.1
      rw [this, hb]
      omega
    · intro hsorted
      rw [hepochs] at hsorted ⊢
      constructor
      · have := validTrace_lookups env db ShardID st.visits (-1) Committee.empty _ _ htrace
          hlt2 hsorted hlow
        have hno : ¬ ∃ v ∈ st.visits, (v.block.Epoch : Int) = -1 := by
          rintro ⟨v, _, he⟩
          omega
        rw [if_neg hno] at this
        simpa using this
      · have hpw := (validTrace_same_committee env db ShardID st.visits (-1) Committee.empty
          _ _ htrace hlt2 hsorted hlow).2
        intro v hvm w hwm
        have hsymm : Symmetric (fun v w : Visit =>
            v.block.Epoch = w.block.Epoch → v.committee = w.committee) :=
          fun x y hxy he => (hxy he.symm).symm
        exact hpw.forall_of_forall hsymm (fun x _ _ => rfl) hvm hwm

/-- C10, witness: in the window of heights 0 to 3 of the sample store the epochs of
the two materialized blocks are 0 and 1, and two lookups are made. -/
theorem C10_committee_cache_witness :
    (∀ p ∈ materialized sampleWindow, p.2.Epoch < 2 ^ 63) ∧
    ((materialized sampleWindow).map (fun p => p.2.Epoch)).Pairwise (fun a b => a ≤ b) ∧
    ((materialized sampleWindow).map (fun p => p.2.Epoch)).dedup.length = 2 ∧
    ∃ st, scan sampleEnv sampleDBFull 0 1 sampleWindow = Outcome.ret st ∧
      (st.visits.filter (fun v => v.resolved)).length =
        ((materialized sampleWindow).map (fun p => p.2.Epoch)).dedup.length :=
  have h1 : ∀ p ∈ materialized sampleWindow, p.2.Epoch < 2 ^ 63 := by decide
  have h2 : ((materialized sampleWindow).map (fun p => p.2.Epoch)).Pairwise
      (fun a b => a ≤ b) := by decide
  ⟨h1, h2, by decide,
    match C10_committee_cache sampleEnv sampleDBFull 0 1 sampleWindow with
    | ⟨st, hst, _, _, _, h⟩ => ⟨st, hst, ((h h1).2 h2).1⟩⟩

/-- C10, counterexample: the only materialized block of the window has epoch `2^63`,
which is greater than the initial cached epoch -1, yet no lookup is made for it
(`int64(2^63)` is `-2^63`): zero lookups for one distinct epoch, and the cached
epoch stays -1. -/
theorem C10_committee_cache_counterexample :
    ((sampleBlockBigEpoch.Epoch : Int) > -1) ∧
    materialized [some sampleBlock0, some sampleBlockBigEpoch, some sampleBlock3] =
      [(1, sampleBlockBigEpoch)] ∧
    ((scan sampleEnv sampleDB 0 0
        [some sampleBlock0, some sampleBlockBigEpoch, some sampleBlock3]).returned.map
      (fun st => (st.visits.map (fun v => (v.epochBefore, v.resolved)), st.curEpoch))) =
      some ([(-1, false)], -1) ∧
    ([sampleBlockBigEpoch.Epoch].dedup.length = 1) := by
  decide

/-! ## C2: signers are members of the cached committee, in committee order -/

/-- The signers read off a set mask are a subsequence of the committee's display
addresses. -/
theorem enabledSigners_sublist {Mask : Type} (env : Env Mask) (mask : Mask)
    (nodes : List NodeID) :
    List.Sublist (enabledSigners env mask nodes)
      (nodes.filterMap (fun validator => env.AddressToBech32 validator.EcdsaAddress)) := by
  induction nodes with
  | nil => exact List.Sublist.slnil
  | cons validator rest ih =>
    unfold enabledSigners at ih ⊢
    simp only [List.filterMap_cons]
    cases haddr : env.AddressToBech32 validator.EcdsaAddress with
    | none => simpa using ih
    | some oneAddress =>
      cases hkey : env.KeyEnabled mask (env.toLibKey validator.BlsPublicKey) with
      | none => exact List.Sublist.cons _ ih
      | some enabled =>
        cases enabled with
        | false => exact List.Sublist.cons _ ih
        | true => exact List.Sublist.cons₂ _ ih

/-- A signer read off a set mask is the display address of a validator of the
committee whose key is enabled in the mask. -/
theorem mem_enabledSigners {Mask : Type} (env : Env Mask) (mask : Mask) (nodes : List NodeID)
    (a : String) (h : a ∈ enabledSigners env mask nodes) :
    ∃ validator ∈ nodes, env.AddressToBech32 validator.EcdsaAddress = some a ∧
      env.KeyEnabled mask (env.toLibKey validator.BlsPublicKey) = some true := by
  unfold enabledSigners at h
  rw [List.mem_filterMap] at h
  obtain ⟨validator, hmem, hsome⟩ := h
  refine ⟨validator, hmem, ?_⟩
  cases haddr : env.AddressToBech32 validator.EcdsaAddress with
  | none => simp [haddr] at hsome
  | some oneAddress =>
    cases hkey : env.KeyEnabled mask (env.toLibKey validator.BlsPublicKey) with
    | none => simp [haddr, hkey] at hsome
    | some enabled =>
      cases enabled with
      | false => simp [haddr, hkey] at hsome
      | true =>
        simp only [haddr, hkey, Option.some.injEq] at hsome
        subst hsome
        exact ⟨rfl, rfl⟩

/-- The committee after a lookup is the committee the lookup finds, or the one held
before when it finds none. -/
theorem resolveCommittee_eq_lookup {Mask : Type} (env : Env Mask) (db : DB) (ShardID : Nat)
    (accountBlock : RawBlock) (epoch : Nat) (committee : Committee) :
    resolveCommittee env db ShardID accountBlock epoch committee =
      (lookupCommittee env db ShardID accountBlock epoch).getD committee := by
  unfold resolveCommittee lookupCommittee
  cases db (env.GetCommitteeKey ShardID epoch) with
  | some bytes => rfl
  | none =>
    cases accountBlock.ShardState with
    | none => rfl
    | some state =>
      simp only []
      cases state.find? (fun shardCommittee => shardCommittee.ShardID == accountBlock.ShardID)
        <;> rfl

/-- Along a valid trace in non-decreasing epoch order, the committee used on a pass
is the start committee, on a block of the start epoch, or the committee of a
pass of the trace on a block of the same epoch at which the lookup ran. -/
theorem validTrace_resolver {Mask : Type} (env : Env Mask) (db : DB) (ShardID : Nat)
    (vs : List Visit) :
    ∀ (e : Int) (c : Committee) (e1 : Int) (c1 : Committee),
      validTrace env db ShardID e c vs e1 c1 →
      (∀ v ∈ vs, v.block.Epoch < 2 ^ 63) →
      (vs.map (fun v => v.block.Epoch)).Pairwise (fun a b => a ≤ b) →
      (∀ v ∈ vs, e ≤ (v.block.Epoch : Int)) →
      ∀ v ∈ vs, ((v.block.Epoch : Int) = e ∧ v.committee = c) ∨
        ∃ w ∈ vs, w.resolved = true ∧ w.block.Epoch = v.block.Epoch ∧
          v.committee = w.committee := by
  induction vs with
  | nil => intro _ _ _ _ _ _ _ _ v hv; cases hv
  | cons v rest ih =>
    intro e c e1 c1 h hlt hsorted hlow
    obtain ⟨hb, hcb, hf, hrest⟩ := h
    obtain ⟨hafter, hres, hkeep⟩ := Visit.epochAfter_of_le env db ShardID v hf
      (hlt v (List.mem_cons_self _ _)) (by rw [hb]; exact hlow v (List.mem_cons_self _ _))
    rw [hb] at hres
    simp only [List.map_cons, List.pairwise_cons, List.mem_map, forall_exists_index,
      and_imp, forall_apply_eq_imp_iff₂] at hsorted
    obtain ⟨hhead, htail⟩ := hsorted
    have hih := ih v.epochAfter v.committee e1 c1 hrest
      (fun w hw => hlt w (List.mem_cons_of_mem _ hw)) htail
      (fun w hw => by rw [hafter]; exact_mod_cast hhead w hw)
    have hle := hlow v (List.mem_cons_self _ _)
    have hown : ∀ u : Visit, (u.block.Epoch : Int) = (v.block.Epoch : Int) →
        u.committee = v.committee →
        ((u.block.Epoch : Int) = e ∧ u.committee = c) ∨
          ∃ w ∈ v :: rest, w.resolved = true ∧ w.block.Epoch = u.block.Epoch ∧
            u.committee = w.committee := by
      intro u hue huc
      cases hvr : v.resolved with
      | true =>
        right
        exact ⟨v, List.mem_cons_self _ _, hvr, by exact_mod_cast hue.symm, huc⟩
      | false =>
        left
        have hne : ¬ (e < (v.block.Epoch : Int)) := by
          intro hlt2
          have := hres.mpr hlt2
          rw [hvr] at this
          cases this
        exact ⟨by omega, by rw [huc, hkeep hvr, hcb]⟩
    intro u hu
    rcases List.mem_cons.mp hu with rfl | hu
    · exact hown u rfl rfl
    · rcases hih u hu with ⟨hue, huc⟩ | ⟨w, hw, hwr, hwe, hwc⟩
      · rw [hafter] at hue
        exact hown u hue huc
      · exact Or.inr ⟨w, List.mem_cons_of_mem _ hw, hwr, hwe, hwc⟩

/-- C2 (amended): in every scan, the signer list of each materialized block is a
subsequence of the display addresses, in committee order, of the committee held
in the cache at that block, and each signer is the address of a validator of
that committee whose key is enabled in the mask set from the bitmap of the next
slot. When the epochs of the materialized blocks are below `2^63` and visited in
non-decreasing order, the cached committee is the committee of a pass on a
block of the same epoch at which the lookup of lines 245-260 ran; whenever that
lookup finds a committee (the one decoded from the persisted record keyed by
the shard of the service and that epoch or, when `db.Get` fails, the entry of
the shard state in the header of that block for the shard of that block), the
cached committee is the committee found and the signer list is a subsequence of
its addresses. -/
theorem C2_signers_of_cached_committee {Mask : Type} (env : Env Mask) (db : DB) (ShardID : Nat)
    (fromInt : Int) (accountBlocks : List (Option RawBlock)) :
    ∃ st, scan env db ShardID fromInt accountBlocks = Outcome.ret st ∧
      st.visits.map (fun v => (v.id, v.block)) = materialized accountBlocks ∧
      st.blocks = st.visits.map (Visit.record env fromInt accountBlocks) ∧
      (∀ v ∈ st.visits,
        List.Sublist (v.record env fromInt accountBlocks).Signers
          (committeeAddresses env v.committee) ∧
        ∀ a ∈ (v.record env fromInt accountBlocks).Signers,
          ∃ nextBlock mask0 mask, slot accountBlocks (v.id + 1) = some nextBlock ∧
            env.NewMask (committeeKeys env v.committee) = some mask0 ∧
            env.SetMask mask0 nextBlock.LastCommitBitmap = some mask ∧
            ∃ validator ∈ v.committee.NodeList,
              env.AddressToBech32 validator.EcdsaAddress = some a ∧
              env.KeyEnabled mask (env.toLibKey validator.BlsPublicKey) = some true) ∧
      ((∀ p ∈ materialized accountBlocks, p.2.Epoch < 2 ^ 63) →
        ((materialized accountBlocks).map (fun p => p.2.Epoch)).Pairwise (fun a b => a ≤ b) →
        ∀ v ∈ st.visits,
          (∃ w ∈ st.visits, w.resolved = true ∧ w.block.Epoch = v.block.Epoch ∧
            v.committee = w.committee ∧
            ∀ found, lookupCommittee env db ShardID w.block w.block.Epoch = some found →
              v.committee = found ∧
              List.Sublist (v.record env fromInt accountBlocks).Signers
                (committeeAddresses env found)) ∧
          (∀ bytes, db (env.GetCommitteeKey ShardID v.block.Epoch) = some bytes →
            v.committee = (env.decodeCommittee bytes).value)) := by
  obtain ⟨st, hst, hv, hb, htrace⟩ := scan_trace env db ShardID fromInt accountBlocks
  have hsub : ∀ v ∈ st.visits,
      List.Sublist (v.record env fromInt accountBlocks).Signers
        (committeeAddresses env v.committee) ∧
      ∀ a ∈ (v.record env fromInt accountBlocks).Signers,
        ∃ nextBlock mask0 mask, slot accountBlocks (v.id + 1) = some nextBlock ∧
          env.NewMask (committeeKeys env v.committee) = some mask0 ∧
          env.SetMask mask0 nextBlock.LastCommitBitmap = some mask ∧
          ∃ validator ∈ v.committee.NodeList,
            env.AddressToBech32 validator.EcdsaAddress = some a ∧
            env.KeyEnabled mask (env.toLibKey validator.BlsPublicKey) = some true := by
    intro v _
    have hs : (v.record env fromInt accountBlocks).Signers =
        decodeSigners env v.committee (slot accountBlocks (v.id + 1)) := by
      simp [Visit.record, buildRecord, NewBlock]
    rw [hs]
    unfold decodeSigners
    cases hnew : env.NewMask (committeeKeys env v.committee) with
    | none => exact ⟨List.nil_sublist _, fun a ha => by cases ha⟩
    | some mask0 =>
      cases hnext : slot accountBlocks (v.id + 1) with
      | none => exact ⟨List.nil_sublist _, fun a ha => by cases ha⟩
      | some nextBlock =>
        simp only [signersOfBitmap]
        cases hset : env.SetMask mask0 nextBlock.LastCommitBitmap with
        | none => exact ⟨List.nil_sublist _, fun a ha => by cases ha⟩
        | some mask =>
          refine ⟨enabledSigners_sublist env mask v.committee.NodeList, ?_⟩
          intro a ha
          exact ⟨nextBlock, mask0, mask, rfl, rfl, hset,
            mem_enabledSigners env mask v.committee.NodeList a ha⟩
  refine ⟨st, hst, hv, hb, hsub, ?_⟩
  intro hlt hsorted
  have hepochs : (materialized accountBlocks).map (fun p => p.2.Epoch) =
      st.visits.map (fun v => v.block.Epoch) := by
    rw [← hv, List.map_map]
    rfl
  have hlt2 : ∀ v ∈ st.visits, v.block.Epoch < 2 ^ 63 := by
    intro v hvm
    have : (v.id, v.block) ∈ materialized accountBlocks := by
      rw [← hv]
      exact List.mem_map_of_mem _ hvm
    exact hlt _ this
  rw [hepochs] at hsorted
  intro v hvm
  constructor
  · rcases validTrace_resolver env db ShardID st.visits (-1) Committee.empty _ _ htrace hlt2
      hsorted (fun u _ => by omega) v hvm with ⟨he, _⟩ | ⟨w, hw, hwr, hwe, hwc⟩
    · omega
    · refine ⟨w, hw, hwr, hwe, hwc, ?_⟩
      intro found hfound
      have hf := (validTrace_follows env db ShardID _ _ _ _ _ htrace w hw).2
      rw [hwr, if_pos rfl, resolveCommittee_eq_lookup, hfound] at hf
      have hvc : v.committee = found := by rw [hwc, hf]; rfl
      refine ⟨hvc, ?_⟩
      rw [← hvc]
      exact (hsub v hvm).1
  · exact validTrace_persisted env db ShardID st.visits (-1) Committee.empty _ _ htrace hlt2
      hsorted (fun v _ => by omega) (fun v _ he => by omega) v hvm

/-- C2, witness: in the window of heights 0 to 3 the epochs 0 and 1 are visited in
order. Over the store that holds the committee records of both epochs, and
over the store that holds the record of epoch 0 only while the header of the
block of height 2 carries the shard state, the lookup for epoch 1 finds the
committee of epoch 1 (first tier, respectively second tier), and the signer of
the block of height 2 is its validator `one9`. -/
theorem C2_signers_of_cached_committee_witness :
    (∀ p ∈ materialized sampleWindow, p.2.Epoch < 2 ^ 63) ∧
    ((materialized sampleWindow).map (fun p => p.2.Epoch)).Pairwise (fun a b => a ≤ b) ∧
    lookupCommittee sampleEnv sampleDBFull 0 sampleBlock2 1 = some sampleCommittee1 ∧
    lookupCommittee sampleEnv sampleDB 0 sampleBlock2State 1 = some sampleCommittee1 ∧
    ((scan sampleEnv sampleDBFull 0 1 sampleWindow).returned.map
      (fun st => st.blocks.map (fun b => (b.Height, b.Epoch, b.Signers)))) =
      some [("1", 0, ["one8"]), ("2", 1, ["one9"])] ∧
    ((scan sampleEnv sampleDB 0 1 sampleWindowState).returned.map
      (fun st => st.blocks.map (fun b => (b.Height, b.Epoch, b.Signers)))) =
      some [("1", 0, ["one8"]), ("2", 1, ["one9"])] ∧
    ∃ st, scan sampleEnv sampleDBFull 0 1 sampleWindow = Outcome.ret st ∧
      ∀ v ∈ st.visits,
        (∃ w ∈ st.visits, w.resolved = true ∧ w.block.Epoch = v.block.Epoch ∧
          v.committee = w.committee ∧
          ∀ found, lookupCommittee sampleEnv sampleDBFull 0 w.block w.block.Epoch = some found →
            v.committee = found ∧
            List.Sublist (v.record sampleEnv 1 sampleWindow).Signers
              (committeeAddresses sampleEnv found)) ∧
        (∀ bytes, sampleDBFull (sampleEnv.GetCommitteeKey 0 v.block.Epoch) = some bytes →
          v.committee = (sampleEnv.decodeCommittee bytes).value) :=
  have h1 : ∀ p ∈ materialized sampleWindow, p.2.Epoch < 2 ^ 63 := by decide
  have h2 : ((materialized sampleWindow).map (fun p => p.2.Epoch)).Pairwise
      (fun a b => a ≤ b) := by decide
  ⟨h1, h2, by decide, by decide, by decide, by decide,
    match C2_signers_of_cached_committee sampleEnv sampleDBFull 0 1 sampleWindow with
    | ⟨st, hst, _, _, _, h⟩ => ⟨st, hst, h h1 h2⟩⟩

/-- C2, counterexample: the window of heights 0 to 3 is visited in non-decreasing
epoch order (0, then 1); the block of height 2 has epoch 1, for which the store
has no committee record and the header no shard state, so the lookup for its
epoch finds no committee; its signer list is `one7`, the address of a validator
of the committee of epoch 0, which is not an address of the committee of
epoch 1. -/
theorem C2_signers_of_cached_committee_counterexample :
    ((materialized sampleWindow).map (fun p => p.2.Epoch) = [0, 1]) ∧
    lookupCommittee sampleEnv sampleDB 0 sampleBlock2 sampleBlock2.Epoch = none ∧
    resolveCommittee sampleEnv sampleDB 0 sampleBlock2 sampleBlock2.Epoch Committee.empty =
      Committee.empty ∧
    ((scan sampleEnv sampleDB 0 1 sampleWindow).returned.map
      (fun st => st.blocks.map (fun b => (b.Height, b.Epoch, b.Signers)))) =
      some [("1", 0, ["one8"]), ("2", 1, ["one7"])] ∧
    committeeAddresses sampleEnv Committee.empty = [] ∧
    committeeAddresses sampleEnv sampleCommittee1 = ["one9"] ∧
    committeeAddresses sampleEnv sampleCommittee0 = ["one7", "one8"] ∧
    ¬ List.Sublist ["one7"] (committeeAddresses sampleEnv Committee.empty) ∧
    ¬ List.Sublist ["one7"] (committeeAddresses sampleEnv sampleCommittee1) := by
  decide

/-! ## C4: the records assembled before pagination -/

theorem wrap64_range (x : Int) : minInt ≤ wrap64 x ∧ wrap64 x ≤ maxInt := by
  unfold wrap64 minInt maxInt
  omega

/-- When the bound is below the largest `int`, a read loop that returns has
appended one slot per height from its start to its bound. -/
theorem readLoop_ret_length {Mask : Type} (env : Env Mask) (db : DB) (bound : Int)
    (hbound : bound < maxInt) (fuel : Nat) :
    ∀ (i : Int) (st : ReadState) (blocks : List (Option RawBlock)), minInt ≤ i →
      (readLoop env db bound fuel i st).1 = Outcome.ret blocks →
      (blocks.length : Int) = st.blocks.length + max 0 (bound + 1 - i) := by
  induction fuel with
  | zero => intro i st blocks _ h; cases h
  | succ f ih =>
    intro i st blocks hmin h
    unfold readLoop at h
    by_cases hle : i ≤ bound
    · have hw : wrap64 (i + 1) = i + 1 := by
        unfold wrap64
        simp only [maxInt, minInt] at hbound hmin
        omega
      rw [if_pos hle, hw] at h
      by_cases hneg : i < 0
      · rw [if_pos hneg] at h
        have := ih (i + 1) _ blocks (by omega) h
        simp only [List.length_append, List.length_singleton] at this
        push_cast at this
        omega
      · rw [if_neg hneg] at h
        cases hget : db (env.GetBlockKey i) with
        | none =>
          simp only [hget] at h
          have := ih (i + 1) _ blocks (by omega) h
          simp only [List.length_append, List.length_singleton] at this
          push_cast at this
          omega
        | some data =>
          simp only [hget] at h
          cases hd : env.decodeBlock data with
          | none => simp only [hd] at h; cases h
          | some block =>
            simp only [hd] at h
            have := ih (i + 1) _ blocks (by omega) h
            simp only [List.length_append, List.length_singleton] at this
            push_cast at this
            omega
    · rw [if_neg hle] at h
      cases h
      omega

/-- When the bound is the largest `int` the condition `i <= bound` never fails and
the read loop never returns a list. -/
theorem readLoop_never_ret {Mask : Type} (env : Env Mask) (db : DB) (fuel : Nat) :
    ∀ (i : Int) (st : ReadState) (blocks : List (Option RawBlock)), i ≤ maxInt →
      (readLoop env db maxInt fuel i st).1 ≠ Outcome.ret blocks := by
  induction fuel with
  | zero => intro i st blocks _ h; cases h
  | succ f ih =>
    intro i st blocks hmax h
    unfold readLoop at h
    rw [if_pos hmax] at h
    have hnext := fun st1 => ih (wrap64 (i + 1)) st1 blocks (wrap64_range (i + 1)).2
    by_cases hneg : i < 0
    · rw [if_pos hneg] at h
      exact hnext _ h
    · rw [if_neg hneg] at h
      cases hget : db (env.GetBlockKey i) with
      | none =>
        simp only [hget] at h
        exact hnext _ h
      | some data =>
        simp only [hget] at h
        cases hd : env.decodeBlock data with
        | none => simp only [hd] at h; cases h
        | some block =>
          simp only [hd] at h
          exact hnext _ h

/-- A window returned by `ReadBlocksFromDB(from, to)` has at most one slot, or it
has the `to - from + 3` slots of a range without overflow. -/
theorem ReadBlocksFromDB_ret_length {Mask : Type} (env : Env Mask) (db : DB) (fuel : Nat)
    (fromInt toInt : Int) (hfrom : minInt ≤ fromInt ∧ fromInt ≤ maxInt)
    (hto : minInt ≤ toInt ∧ toInt ≤ maxInt) (accountBlocks : List (Option RawBlock))
    (hread : ReadBlocksFromDB env db fuel fromInt toInt = Outcome.ret accountBlocks) :
    accountBlocks.length ≤ 1 ∨
      (minInt < fromInt ∧ toInt < maxInt - 1 ∧
        (accountBlocks.length : Int) = toInt - fromInt + 3) := by
  obtain ⟨hf1, hf2⟩ := hfrom
  obtain ⟨ht1, ht2⟩ := hto
  unfold ReadBlocksFromDB readRun at hread
  have hstart := wrap64_range (fromInt - 1)
  by_cases hb : wrap64 (toInt + 1) = maxInt
  · rw [hb] at hread
    exact absurd hread (readLoop_never_ret env db fuel _ _ _ hstart.2)
  · have hbound : wrap64 (toInt + 1) < maxInt := by
      have := (wrap64_range (toInt + 1)).2
      omega
    have hlen := readLoop_ret_length env db _ hbound fuel _ _ _ hstart.1 hread
    simp only [List.length_nil, Nat.cast_zero, zero_add] at hlen
    simp only [maxInt, minInt] at hf1 hf2 ht1 ht2 hstart hbound hb ⊢
    by_cases hto2 : toInt = 2 ^ 63 - 1
    · left
      have : wrap64 (toInt + 1) = -(2 ^ 63) := by unfold wrap64; omega
      rw [this] at hlen
      omega
    · have hw2 : wrap64 (toInt + 1) = toInt + 1 := by apply wrap64_of_range <;> omega
      rw [hw2] at hlen hb
      by_cases hfrom2 : fromInt = -(2 ^ 63)
      · left
        have : wrap64 (fromInt - 1) = 2 ^ 63 - 1 := by unfold wrap64; omega
        rw [this] at hlen
        omega
      · have hw1 : wrap64 (fromInt - 1) = fromInt - 1 := by apply wrap64_of_range <;> omega
        rw [hw1] at hlen
        by_cases hsmall : accountBlocks.length ≤ 1
        · exact Or.inl hsmall
        · right
          refine ⟨by omega, by omega, by omega⟩

/-- The pairs kept by a selection that keeps the index come in the order of the
indices. -/
theorem filterMap_fst_sublist (len : Nat) (ps : List (Nat × Option RawBlock)) :
    List.Sublist ((ps.filterMap (materializedPair len)).map Prod.fst) (ps.map Prod.fst) := by
  induction ps with
  | nil => exact List.Sublist.slnil
  | cons p rest ih =>
    simp only [List.filterMap_cons, List.map_cons]
    cases hsel : materializedPair len p with
    | none => exact List.Sublist.cons _ ih
    | some q =>
      have hq : q.1 = p.1 := by
        unfold materializedPair at hsel
        split at hsel
        · cases hsel
        · cases hp2 : p.2 with
          | none => rw [hp2] at hsel; cases hsel
          | some b =>
            rw [hp2] at hsel
            simp only [Option.map_some', Option.some.injEq] at hsel
            rw [← hsel]
      simp only [List.map_cons, hq]
      exact List.Sublist.cons₂ _ ih

/-- The materialized slots are exactly the non-nil slots other than the first and
the last. -/
theorem mem_materialized (accountBlocks : List (Option RawBlock)) (id : Nat) (b : RawBlock) :
    (id, b) ∈ materialized accountBlocks ↔
      1 ≤ id ∧ id + 2 ≤ accountBlocks.length ∧ slot accountBlocks id = some b := by
  unfold materialized
  rw [List.mem_filterMap]
  constructor
  · rintro ⟨⟨i, s⟩, hmem, hsel⟩
    have hget : accountBlocks[i]? = some s := List.mem_enum_iff_getElem?.mp hmem
    have hlt : i < accountBlocks.length := (List.getElem?_eq_some_iff.mp hget).1
    unfold materializedPair at hsel
    split at hsel
    · cases hsel
    · rename_i hguard
      simp only at hguard hsel
      cases s with
      | none => cases hsel
      | some b1 =>
        simp only [Option.map_some', Option.some.injEq, Prod.mk.injEq] at hsel
        obtain ⟨rfl, rfl⟩ := hsel
        refine ⟨by omega, by omega, ?_⟩
        unfold slot
        rw [List.get?_eq_getElem?, hget]
        rfl
  · rintro ⟨h1, h2, hslot⟩
    have hlt : id < accountBlocks.length := by omega
    have hget : accountBlocks[id]? = some (some b) := by
      unfold slot at hslot
      rw [List.get?_eq_getElem?, List.getElem?_eq_getElem hlt] at hslot
      rw [List.getElem?_eq_getElem hlt]
      simp only [Option.join, Option.some_bind, id_eq] at hslot
      rw [hslot]
    refine ⟨(id, some b), List.mem_enum_iff_getElem?.mpr hget, ?_⟩
    unfold materializedPair
    have hguard : ¬ (id = 0 ∨ (id : Int) = (accountBlocks.length : Int) - 1) := by omega
    simp only [hguard, if_false, Option.map_some']

/-- The indices of the materialized slots are strictly increasing. -/
theorem materialized_increasing (accountBlocks : List (Option RawBlock)) :
    ((materialized accountBlocks).map Prod.fst).Pairwise (fun a b => a < b) := by
  have hsub := filterMap_fst_sublist accountBlocks.length accountBlocks.enum
  rw [List.enum_map_fst] at hsub
  exact List.Pairwise.sublist hsub (List.pairwise_lt_range _)

/-- C4: for every `from`, `to` and storage content for which `ReadBlocksFromDB` returns
a window, the scan of `GetExplorerBlocks` returns, and the list it assembles
before pagination holds exactly one record for each non-nil interior slot of the
window (index 1 to len-2), in ascending slot order, the record of slot `id`
carrying height `id + from - 1` and the hash of the block in that slot; every
emitted height lies in `[from, to]` and the heights are strictly increasing. -/
theorem C4_assembled_records {Mask : Type} (env : Env Mask) (db : DB) (ShardID : Nat)
    (fuel : Nat) (fromInt toInt : Int) (accountBlocks : List (Option RawBlock))
    (hfrom : minInt ≤ fromInt ∧ fromInt ≤ maxInt) (hto : minInt ≤ toInt ∧ toInt ≤ maxInt)
    (hread : ReadBlocksFromDB env db fuel fromInt toInt = Outcome.ret accountBlocks) :
    ∃ st, scan env db ShardID fromInt accountBlocks = Outcome.ret st ∧
      (∀ id b, (id, b) ∈ materialized accountBlocks ↔
        1 ≤ id ∧ id + 2 ≤ accountBlocks.length ∧ slot accountBlocks id = some b) ∧
      ((materialized accountBlocks).map Prod.fst).Pairwise (fun a b => a < b) ∧
      st.blocks.map (fun r => r.Height) =
        (materialized accountBlocks).map (fun p => Itoa ((p.1 : Int) + fromInt - 1)) ∧
      st.blocks.map (fun r => r.ID) = (materialized accountBlocks).map (fun p => p.2.Hash) ∧
      (∀ p ∈ materialized accountBlocks,
        fromInt ≤ (p.1 : Int) + fromInt - 1 ∧ (p.1 : Int) + fromInt - 1 ≤ toInt) ∧
      ((materialized accountBlocks).map (fun p => (p.1 : Int) + fromInt - 1)).Pairwise
        (fun a b => a < b) := by
  obtain ⟨st, hst, hv, hb, _⟩ := scan_trace env db ShardID fromInt accountBlocks
  have hlen := ReadBlocksFromDB_ret_length env db fuel fromInt toInt hfrom hto accountBlocks hread
  have hmem := mem_materialized accountBlocks
  have hinc := materialized_increasing accountBlocks
  have hrange : ∀ p ∈ materialized accountBlocks,
      fromInt ≤ (p.1 : Int) + fromInt - 1 ∧ (p.1 : Int) + fromInt - 1 ≤ toInt ∧
      -(2 ^ 63) ≤ (p.1 : Int) + fromInt - 1 ∧ (p.1 : Int) + fromInt < 2 ^ 63 := by
    rintro ⟨id, b⟩ hp
    obtain ⟨h1, h2, _⟩ := (hmem id b).mp hp
    obtain ⟨hf1, hf2⟩ := hfrom
    obtain ⟨ht1, ht2⟩ := hto
    simp only [maxInt, minInt] at hf1 hf2 ht1 ht2 hlen
    rcases hlen with hsmall | ⟨_, _, hl⟩
    · omega
    · simp only
      omega
  refine ⟨st, hst, hmem, hinc, ?_, ?_, fun p hp => ⟨(hrange p hp).1, (hrange p hp).2.1⟩, ?_⟩
  · rw [hb, ← hv, List.map_map, List.map_map]
    apply List.map_congr_left
    intro v hvm
    have hp : (v.id, v.block) ∈ materialized accountBlocks := by
      rw [← hv]
      exact List.mem_map_of_mem _ hvm
    obtain ⟨_, _, h3, h4⟩ := hrange _ hp
    simp only at h3 h4
    have hw1 : wrap64 ((v.id : Int) + fromInt) = (v.id : Int) + fromInt := by
      apply wrap64_of_range <;> omega
    have hw2 : wrap64 ((v.id : Int) + fromInt - 1) = (v.id : Int) + fromInt - 1 := by
      apply wrap64_of_range <;> omega
    simp only [Function.comp, Visit.record, buildRecord, NewBlock, hw1, hw2]
  · rw [hb, ← hv, List.map_map, List.map_map]
    apply List.map_congr_left
    intro v _
    simp only [Function.comp, Visit.record, buildRecord, NewBlock]
  · have := hinc
    rw [List.pairwise_map] at this ⊢
    exact this.imp (fun h => by omega)

/-- C4, witness: the window of `ReadBlocksFromDB(1, 2)` over the sample store and the
records assembled from it. -/
theorem C4_assembled_records_witness :
    (minInt ≤ (1 : Int) ∧ (1 : Int) ≤ maxInt) ∧ (minInt ≤ (2 : Int) ∧ (2 : Int) ≤ maxInt) ∧
    ReadBlocksFromDB sampleEnv sampleDB 10 1 2 = Outcome.ret sampleWindow ∧
    materialized sampleWindow = [(1, sampleBlock1), (2, sampleBlock2)] ∧
    ∃ st, scan sampleEnv sampleDB 0 1 sampleWindow = Outcome.ret st ∧
      st.blocks.map (fun r => r.Height) =
        (materialized sampleWindow).map (fun p => Itoa ((p.1 : Int) + 1 - 1)) ∧
      st.blocks.map (fun r => r.ID) = (materialized sampleWindow).map (fun p => p.2.Hash) :=
  have h1 : minInt ≤ (1 : Int) ∧ (1 : Int) ≤ maxInt := by decide
  have h2 : minInt ≤ (2 : Int) ∧ (2 : Int) ≤ maxInt := by decide
  have h3 : ReadBlocksFromDB sampleEnv sampleDB 10 1 2 = Outcome.ret sampleWindow := by decide
  ⟨h1, h2, h3, by decide,
    match C4_assembled_records sampleEnv sampleDB 0 10 1 2 sampleWindow h1 h2 h3 with
    | ⟨st, hst, _, _, hh, hid, _⟩ => ⟨st, hst, hh, hid⟩⟩

/-! ## C11: the references to the neighbours -/

/-- In a window returned by `ReadBlocksFromDB(from, to)` the heights next to a
materialized slot are computed without overflow. -/
theorem materialized_no_wrap {Mask : Type} (env : Env Mask) (db : DB) (fuel : Nat)
    (fromInt toInt : Int) (accountBlocks : List (Option RawBlock))
    (hfrom : minInt ≤ fromInt ∧ fromInt ≤ maxInt) (hto : minInt ≤ toInt ∧ toInt ≤ maxInt)
    (hread : ReadBlocksFromDB env db fuel fromInt toInt = Outcome.ret accountBlocks) :
    ∀ p ∈ materialized accountBlocks,
      -(2 ^ 63) ≤ (p.1 : Int) + fromInt - 2 ∧ (p.1 : Int) + fromInt < 2 ^ 63 := by
  have hlen := ReadBlocksFromDB_ret_length env db fuel fromInt toInt hfrom hto accountBlocks hread
  rintro ⟨id, b⟩ hp
  obtain ⟨h1, h2, _⟩ := (mem_materialized accountBlocks id b).mp hp
  obtain ⟨hf1, hf2⟩ := hfrom
  obtain ⟨ht1, ht2⟩ := hto
  simp only [maxInt, minInt] at hf1 hf2 ht1 ht2 hlen
  rcases hlen with hsmall | ⟨_, _, hl⟩
  · omega
  · simp only
    omega

/-- C11: for every window that `ReadBlocksFromDB(from, to)` returns and every
materialized block, at slot `id` and height `h = id + from - 1`: the record
carries the decimal text of `h`; when the previous slot is non-nil, prevRef is
the hash of its block with the decimal text of `h - 1`; when the next slot is
non-nil, nextRef is the hash of its block with the decimal text of `h + 1`. -/
theorem C11_neighbour_references {Mask : Type} (env : Env Mask) (db : DB) (ShardID : Nat)
    (fuel : Nat) (fromInt toInt : Int) (accountBlocks : List (Option RawBlock))
    (hfrom : minInt ≤ fromInt ∧ fromInt ≤ maxInt) (hto : minInt ≤ toInt ∧ toInt ≤ maxInt)
    (hread : ReadBlocksFromDB env db fuel fromInt toInt = Outcome.ret accountBlocks) :
    ∃ st, scan env db ShardID fromInt accountBlocks = Outcome.ret st ∧
      st.visits.map (fun v => (v.id, v.block)) = materialized accountBlocks ∧
      st.blocks = st.visits.map (Visit.record env fromInt accountBlocks) ∧
      ∀ v ∈ st.visits,
        (v.record env fromInt accountBlocks).Height = Itoa ((v.id : Int) + fromInt - 1) ∧
        (∀ prevBlock, slot accountBlocks (v.id - 1) = some prevBlock →
          (v.record env fromInt accountBlocks).PrevBlock =
            { ID := prevBlock.Hash, Height := Itoa (((v.id : Int) + fromInt - 1) - 1) }) ∧
        (∀ nextBlock, slot accountBlocks (v.id + 1) = some nextBlock →
          (v.record env fromInt accountBlocks).NextBlock =
            { ID := nextBlock.Hash, Height := Itoa (((v.id : Int) + fromInt - 1) + 1) }) := by
  obtain ⟨st, hst, hv, hb, _⟩ := scan_trace env db ShardID fromInt accountBlocks
  refine ⟨st, hst, hv, hb, ?_⟩
  intro v hvm
  have hp : (v.id, v.block) ∈ materialized accountBlocks := by
    rw [← hv]
    exact List.mem_map_of_mem _ hvm
  obtain ⟨h1, h2⟩ := materialized_no_wrap env db fuel fromInt toInt accountBlocks hfrom hto
    hread _ hp
  simp only at h1 h2
  have hid : 1 ≤ v.id := ((mem_materialized accountBlocks v.id v.block).mp hp).1
  have hw0 : wrap64 ((v.id : Int) + fromInt) = (v.id : Int) + fromInt := by
    apply wrap64_of_range <;> omega
  have hw1 : wrap64 ((v.id : Int) + fromInt - 1) = (v.id : Int) + fromInt - 1 := by
    apply wrap64_of_range <;> omega
  have hw2 : wrap64 ((v.id : Int) + fromInt - 2) = (v.id : Int) + fromInt - 2 := by
    apply wrap64_of_range <;> omega
  refine ⟨?_, ?_, ?_⟩
  · simp only [Visit.record, buildRecord, NewBlock, hw0, hw1]
  · intro prevBlock hprev
    have he : (v.id : Int) + fromInt - 1 - 1 = (v.id : Int) + fromInt - 2 := by ring
    simp only [Visit.record, buildRecord, hprev, hw0, hw2, he]
  · intro nextBlock hnext
    have he : (v.id : Int) + fromInt - 1 + 1 = (v.id : Int) + fromInt := by ring
    simp only [Visit.record, buildRecord, hnext, hw0, he]

/-- C11, witness: in the window of `ReadBlocksFromDB(1, 2)` over the sample store the
records of heights 1 and 2 refer to the blocks of heights 0, 2 and 1, 3. -/
theorem C11_neighbour_references_witness :
    (minInt ≤ (1 : Int) ∧ (1 : Int) ≤ maxInt) ∧ (minInt ≤ (2 : Int) ∧ (2 : Int) ≤ maxInt) ∧
    ReadBlocksFromDB sampleEnv sampleDB 10 1 2 = Outcome.ret sampleWindow ∧
    ((scan sampleEnv sampleDB 0 1 sampleWindow).returned.map
      (fun st => st.blocks.map (fun r => (r.Height, r.PrevBlock, r.NextBlock)))) =
      some [("1", { ID := "0xa0", Height := "0" }, { ID := "0xa2", Height := "2" }),
            ("2", { ID := "0xa1", Height := "1" }, { ID := "0xa3", Height := "3" })] ∧
    ∃ st, scan sampleEnv sampleDB 0 1 sampleWindow = Outcome.ret st ∧
      st.blocks = st.visits.map (Visit.record sampleEnv 1 sampleWindow) ∧
      ∀ v ∈ st.visits,
        (v.record sampleEnv 1 sampleWindow).Height = Itoa ((v.id : Int) + 1 - 1) ∧
        (∀ prevBlock, slot sampleWindow (v.id - 1) = some prevBlock →
          (v.record sampleEnv 1 sampleWindow).PrevBlock =
            { ID := prevBlock.Hash, Height := Itoa (((v.id : Int) + 1 - 1) - 1) }) ∧
        (∀ nextBlock, slot sampleWindow (v.id + 1) = some nextBlock →
          (v.record sampleEnv 1 sampleWindow).NextBlock =
            { ID := nextBlock.Hash, Height := Itoa (((v.id : Int) + 1 - 1) + 1) }) :=
  have h1 : minInt ≤ (1 : Int) ∧ (1 : Int) ≤ maxInt := by decide
  have h2 : minInt ≤ (2 : Int) ∧ (2 : Int) ≤ maxInt := by decide
  have h3 : ReadBlocksFromDB sampleEnv sampleDB 10 1 2 = Outcome.ret sampleWindow := by decide
  ⟨h1, h2, h3, by decide,
    match C11_neighbour_references sampleEnv sampleDB 0 10 1 2 sampleWindow h1 h2 h3 with
    | ⟨st, hst, _, hb, h⟩ => ⟨st, hst, hb, h⟩⟩

/-! ## C12: empty references -/

/-- C12 (amended): for every window the scan returns without a panic: the slots it
reads next to a materialized slot lie inside the window, and a block is taken
from a neighbour slot only when that slot is non-nil. The reference prevRef
(respectively nextRef) of a materialized block is the explicit empty reference
whenever the previous (respectively next) slot is nil; a neighbour slot that is
not nil is referred to by the hash of its block, also when it is the first or
the last slot of the window. -/
theorem C12_empty_references {Mask : Type} (env : Env Mask) (db : DB) (ShardID : Nat)
    (fromInt : Int) (accountBlocks : List (Option RawBlock)) :
    ∃ st, scan env db ShardID fromInt accountBlocks = Outcome.ret st ∧
      st.visits.map (fun v => (v.id, v.block)) = materialized accountBlocks ∧
      st.blocks = st.visits.map (Visit.record env fromInt accountBlocks) ∧
      ∀ v ∈ st.visits,
        (1 ≤ v.id ∧ v.id + 1 < accountBlocks.length) ∧
        (slot accountBlocks (v.id - 1) = none →
          (v.record env fromInt accountBlocks).PrevBlock = RefBlock.empty) ∧
        (slot accountBlocks (v.id + 1) = none →
          (v.record env fromInt accountBlocks).NextBlock = RefBlock.empty) ∧
        (∀ prevBlock, slot accountBlocks (v.id - 1) = some prevBlock →
          (v.record env fromInt accountBlocks).PrevBlock.ID = prevBlock.Hash) ∧
        (∀ nextBlock, slot accountBlocks (v.id + 1) = some nextBlock →
          (v.record env fromInt accountBlocks).NextBlock.ID = nextBlock.Hash) := by
  obtain ⟨st, hst, hv, hb, _⟩ := scan_trace env db ShardID fromInt accountBlocks
  refine ⟨st, hst, hv, hb, ?_⟩
  intro v hvm
  have hp : (v.id, v.block) ∈ materialized accountBlocks := by
    rw [← hv]
    exact List.mem_map_of_mem _ hvm
  obtain ⟨h1, h2, _⟩ := (mem_materialized accountBlocks v.id v.block).mp hp
  refine ⟨⟨h1, by omega⟩, ?_, ?_, ?_, ?_⟩
  · intro hnil
    simp only [Visit.record, buildRecord, hnil]
  · intro hnil
    simp only [Visit.record, buildRecord, hnil]
  · intro prevBlock hprev
    simp only [Visit.record, buildRecord, hprev]
  · intro nextBlock hnext
    simp only [Visit.record, buildRecord, hnext]

/-- C12, counterexample: in the window of heights 0 to 3 the previous slot of the
block of height 1 is slot 0, the first slot of the window, and the next slot of
the block of height 2 is slot 3, the last one; both hold a block, and prevRef of
the first record and nextRef of the second are not the empty reference: they
carry the hashes and heights of the blocks of heights 0 and 3. -/
theorem C12_empty_references_counterexample :
    materialized sampleWindow = [(1, sampleBlock1), (2, sampleBlock2)] ∧
    sampleWindow.length - 1 = 3 ∧
    slot sampleWindow 0 = some sampleBlock0 ∧ slot sampleWindow 3 = some sampleBlock3 ∧
    ((scan sampleEnv sampleDB 0 1 sampleWindow).returned.map
      (fun st => st.blocks.map (fun r => (r.Height, r.PrevBlock, r.NextBlock)))) =
      some [("1", { ID := "0xa0", Height := "0" }, { ID := "0xa2", Height := "2" }),
            ("2", { ID := "0xa1", Height := "1" }, { ID := "0xa3", Height := "3" })] ∧
    ({ ID := "0xa0", Height := "0" } : RefBlock) ≠ RefBlock.empty ∧
    ({ ID := "0xa3", Height := "3" } : RefBlock) ≠ RefBlock.empty := by
  decide

/-! ## C13: the block time -/

/-- C13 (amended): for every materialized block, the block time is 0 when the
previous slot is nil, and otherwise it is the difference of the two timestamps
computed in `int64`, that is, wrapped into the range of `int64`; it equals the
timestamp of the block minus the timestamp of the block in the previous slot
whenever that difference lies in the range of `int64`, as it does when both
timestamps are non-negative and below `2^63`. -/
theorem C13_block_time {Mask : Type} (env : Env Mask) (db : DB) (ShardID : Nat)
    (fromInt : Int) (accountBlocks : List (Option RawBlock)) :
    ∃ st, scan env db ShardID fromInt accountBlocks = Outcome.ret st ∧
      st.visits.map (fun v => (v.id, v.block)) = materialized accountBlocks ∧
      st.blocks = st.visits.map (Visit.record env fromInt accountBlocks) ∧
      ∀ v ∈ st.visits,
        (slot accountBlocks (v.id - 1) = none →
          (v.record env fromInt accountBlocks).BlockTime = 0) ∧
        (∀ prevBlock, slot accountBlocks (v.id - 1) = some prevBlock →
          (v.record env fromInt accountBlocks).BlockTime =
            wrap64 (v.block.Time - prevBlock.Time) ∧
          (minInt ≤ v.block.Time - prevBlock.Time ∧ v.block.Time - prevBlock.Time ≤ maxInt →
            (v.record env fromInt accountBlocks).BlockTime = v.block.Time - prevBlock.Time) ∧
          (0 ≤ v.block.Time ∧ v.block.Time < 2 ^ 63 ∧ 0 ≤ prevBlock.Time ∧
              prevBlock.Time < 2 ^ 63 →
            (v.record env fromInt accountBlocks).BlockTime =
              v.block.Time - prevBlock.Time)) := by
  obtain ⟨st, hst, hv, hb, _⟩ := scan_trace env db ShardID fromInt accountBlocks
  refine ⟨st, hst, hv, hb, ?_⟩
  intro v _
  refine ⟨?_, ?_⟩
  · intro hnil
    simp only [Visit.record, buildRecord, hnil]
  · intro prevBlock hprev
    have hbt : (v.record env fromInt accountBlocks).BlockTime =
        wrap64 (v.block.Time - prevBlock.Time) := by
      simp only [Visit.record, buildRecord, hprev]
    refine ⟨hbt, ?_, ?_⟩
    · rintro ⟨h1, h2⟩
      rw [hbt]
      simp only [minInt, maxInt] at h1 h2
      apply wrap64_of_range <;> omega
    · rintro ⟨h1, h2, h3, h4⟩
      rw [hbt]
      apply wrap64_of_range <;> omega

/-- C13, counterexample: the block in slot 1 has timestamp `2^63` and the block in
the previous slot timestamp 0; the block time of the record is `-2^63`, not the
difference `2^63`, which no `int64` holds. -/
theorem C13_block_time_counterexample :
    materialized [some sampleBlockEarly, some sampleBlockLate, some sampleBlock3] =
      [(1, sampleBlockLate)] ∧
    slot [some sampleBlockEarly, some sampleBlockLate, some sampleBlock3] 0 =
      some sampleBlockEarly ∧
    sampleBlockLate.Time - sampleBlockEarly.Time = 2 ^ 63 ∧
    ((scan sampleEnv sampleDB 0 5
        [some sampleBlockEarly, some sampleBlockLate, some sampleBlock3]).returned.map
      (fun st => st.blocks.map (fun r => r.BlockTime))) = some [-(2 ^ 63)] ∧
    (-(2 ^ 63) : Int) ≠ 2 ^ 63 ∧ maxInt < sampleBlockLate.Time - sampleBlockEarly.Time := by
  decide

/-! ## C14: the checks on the request parameters -/

/-- The handler answers `StatusBadRequest` with the empty list when a check on the
form values fails, and otherwise serves the accepted parameters. -/
theorem GetExplorerBlocks_eq {Mask : Type} (env : Env Mask) (db : DB) (ShardID : Nat)
    (fuel : Nat) (r : Request) :
    GetExplorerBlocks env db ShardID fuel r =
      match parseParams env db r with
      | none => Outcome.ret badRequest
      | some q => serve env db ShardID fuel q := by
  unfold GetExplorerBlocks parseParams
  by_cases hfrom : r.fromParam = ""
  · simp only [hfrom, if_true]
  · simp only [hfrom, if_false]
    cases env.Atoi r.fromParam with
    | none => rfl
    | some fromInt =>
      simp only []
      cases parseTo env db r.toParam with
      | none => rfl
      | some toInt =>
        simp only []
        have hoff : (if r.offsetParam ≠ "" then
            match env.Atoi r.offsetParam with
            | none => none
            | some offset => if offset < 1 then none else some offset
          else some paginationOffset) = parseOffset env r.offsetParam := rfl
        rw [hoff]
        cases parseOffset env r.offsetParam with
        | none => rfl
        | some offset =>
          simp only []
          have hpage : (if r.pageParam ≠ "" then env.Atoi r.pageParam else some 0) =
              parsePage env r.pageParam := rfl
          rw [hpage]
          cases parsePage env r.pageParam with
          | none => rfl
          | some page => rfl

/-- The `offset` parameter is refused exactly when it is given and is not an
integer of at least 1; an accepted page size is at least 1. -/
theorem parseOffset_none_iff {Mask : Type} (env : Env Mask) (offsetParam : String) :
    (parseOffset env offsetParam = none ↔
      (offsetParam ≠ "" ∧ ∀ o, env.Atoi offsetParam = some o → o < 1)) ∧
    (∀ offset, parseOffset env offsetParam = some offset → 1 ≤ offset) := by
  unfold parseOffset paginationOffset
  by_cases he : offsetParam = ""
  · simp [he]
  · simp only [ne_eq, he, not_false_eq_true, if_true, true_and]
    cases ha : env.Atoi offsetParam with
    | none => simp
    | some o =>
      by_cases hlt : o < 1
      · simp [hlt]
      · simp only [hlt, if_false]
        refine ⟨⟨fun h => (by cases h), fun h => absurd (h o rfl) hlt⟩, ?_⟩
        intro offset h
        cases h
        omega

/-- The checks the handler makes: it answers bad request, with an empty block list
and whatever the fuel (so before any block is read), whenever `from` is missing
or not an integer, `to` cannot be read as an integer, `offset` is given and is
not an integer of at least 1, or `page` is given and is not an integer. A
request that is served is served from accepted parameters whose page size is at
least 1. The pagination step, entered with `page >= 0`, `offset >= 1`, no
overflow in `offset*page` and a sequence shorter than `2^63`, returns: it does
not index the sequence at a negative position. -/
theorem GetExplorerBlocks_parameter_checks {Mask : Type} (env : Env Mask) (db : DB) (ShardID : Nat)
    (r : Request) :
    ((r.fromParam = "" ∨ env.Atoi r.fromParam = none ∨ parseTo env db r.toParam = none ∨
        (r.offsetParam ≠ "" ∧ ∀ o, env.Atoi r.offsetParam = some o → o < 1) ∨
        (r.pageParam ≠ "" ∧ env.Atoi r.pageParam = none)) →
      parseParams env db r = none ∧
      ∀ fuel, GetExplorerBlocks env db ShardID fuel r = Outcome.ret badRequest) ∧
    (r.toParam ≠ "" → env.Atoi r.toParam = none → parseTo env db r.toParam = none) ∧
    (∀ q, parseParams env db r = some q →
      1 ≤ q.offset ∧
      ∀ fuel, GetExplorerBlocks env db ShardID fuel r = serve env db ShardID fuel q) ∧
    (∀ (blocks : List Block) (offset page : Int), 0 ≤ page → 1 ≤ offset → offset < 2 ^ 63 →
      offset * page < 2 ^ 63 → (blocks.length : Int) < 2 ^ 63 →
      ∃ out, paginate blocks offset page = Outcome.ret out) := by
  have hoff := parseOffset_none_iff env r.offsetParam
  have hpage : (r.pageParam ≠ "" ∧ env.Atoi r.pageParam = none) →
      parsePage env r.pageParam = none := by
    rintro ⟨hne, hnone⟩
    unfold parsePage
    rw [if_pos hne, hnone]
  refine ⟨?_, ?_, ?_, ?_⟩
  · intro hbad
    have hnone : parseParams env db r = none := by
      unfold parseParams
      by_cases hfrom : r.fromParam = ""
      · rw [if_pos hfrom]
      · rw [if_neg hfrom]
        cases hf : env.Atoi r.fromParam with
        | none => rfl
        | some fromInt =>
          cases ht : parseTo env db r.toParam with
          | none => rfl
          | some toInt =>
            cases ho : parseOffset env r.offsetParam with
            | none => rfl
            | some offset =>
              cases hp : parsePage env r.pageParam with
              | none => rfl
              | some page =>
                exfalso
                rcases hbad with h | h | h | h | h
                · exact hfrom h
                · rw [hf] at h
                  cases h
                · rw [ht] at h
                  cases h
                · have := hoff.1.mpr h
                  rw [ho] at this
                  cases this
                · have := hpage h
                  rw [hp] at this
                  cases this
    refine ⟨hnone, ?_⟩
    intro fuel
    rw [GetExplorerBlocks_eq, hnone]
  · intro hne hnone
    unfold parseTo
    rw [if_neg hne, hnone]
  · intro q hq
    constructor
    · unfold parseParams at hq
      by_cases hfrom : r.fromParam = ""
      · simp [hfrom] at hq
      · simp only [hfrom, if_false] at hq
        cases hf : env.Atoi r.fromParam with
        | none => simp [hf] at hq
        | some fromInt =>
          cases ht : parseTo env db r.toParam with
          | none => simp [hf, ht] at hq
          | some toInt =>
            cases ho : parseOffset env r.offsetParam with
            | none => simp [hf, ht, ho] at hq
            | some offset =>
              cases hp : parsePage env r.pageParam with
              | none => simp [hf, ht, ho, hp] at hq
              | some page =>
                simp only [hf, ht, ho, hp, Option.some.injEq] at hq
                rw [← hq]
                exact hoff.2 offset ho
    · intro fuel
      rw [GetExplorerBlocks_eq, hq]
  · intro blocks offset page hp0 ho1 ho2 hprod hlen
    exact ⟨_, paginateLoop_ok blocks offset page hp0 ho2 hprod hlen (offset.toNat + 1) 0 []
      le_rfl (by omega) (by omega) (by push_cast; omega)⟩

/-- The checks at work: the request `from=1, to=2, offset=0` is answered with bad
request, without fuel for a single read; the request `from=1, to=2` is served
with the default page size 10 and page 0. -/
theorem GetExplorerBlocks_parameter_checks_example :
    (requestEnv.Atoi "0" = some 0) ∧
    GetExplorerBlocks requestEnv sampleDBFull 0 0
        { fromParam := "1", toParam := "2", pageParam := "", offsetParam := "0" } =
      Outcome.ret badRequest ∧
    parseParams requestEnv sampleDBFull
        { fromParam := "1", toParam := "2", pageParam := "", offsetParam := "" } =
      some { fromInt := 1, toInt := 2, offset := 10, page := 0 } ∧
    (1 : Int) ≤ 10 ∧
    GetExplorerBlocks requestEnv sampleDBFull 0 20
        { fromParam := "1", toParam := "2", pageParam := "", offsetParam := "" } =
      serve requestEnv sampleDBFull 0 20 { fromInt := 1, toInt := 2, offset := 10, page := 0 } :=
  have hatoi : requestEnv.Atoi "0" = some 0 := by decide
  have hq : parseParams requestEnv sampleDBFull
      { fromParam := "1", toParam := "2", pageParam := "", offsetParam := "" } =
      some { fromInt := 1, toInt := 2, offset := 10, page := 0 } := by decide
  ⟨hatoi,
    ((GetExplorerBlocks_parameter_checks requestEnv sampleDBFull 0
      { fromParam := "1", toParam := "2", pageParam := "", offsetParam := "0" }).1
        (Or.inr (Or.inr (Or.inr (Or.inl ⟨by decide, fun o ho => by
          rw [hatoi] at ho
          cases ho
          decide⟩))))).2 0,
    hq,
    ((GetExplorerBlocks_parameter_checks requestEnv sampleDBFull 0
      { fromParam := "1", toParam := "2", pageParam := "", offsetParam := "" }).2.2.1 _ hq).1,
    ((GetExplorerBlocks_parameter_checks requestEnv sampleDBFull 0
      { fromParam := "1", toParam := "2", pageParam := "", offsetParam := "" }).2.2.1 _ hq).2 20⟩

/-- C14: the handler at the request `from=1, to=2, page=-1` over the sample store. The
page parses as the integer -1, the checks accept the request with the default
page size 10 and page -1, and the answer is not bad request: the window is read
and scanned into two records, and the pagination step, at `i = 0`, indexes them
at position `0 + 10 * (-1) = -10`, a run-time panic. The request with page 0
and otherwise the same parameters is served with status 200 and both records. -/
theorem C14_negative_page_not_rejected :
    requestEnv.Atoi "-1" = some (-1) ∧ (-1 : Int) < 0 ∧
    parseParams requestEnv sampleDBFull
        { fromParam := "1", toParam := "2", pageParam := "-1", offsetParam := "" } =
      some { fromInt := 1, toInt := 2, offset := 10, page := -1 } ∧
    GetExplorerBlocks requestEnv sampleDBFull 0 20
        { fromParam := "1", toParam := "2", pageParam := "-1", offsetParam := "" } =
      Outcome.panic ∧
    GetExplorerBlocks requestEnv sampleDBFull 0 20
        { fromParam := "1", toParam := "2", pageParam := "-1", offsetParam := "" } ≠
      Outcome.ret badRequest ∧
    ((scan requestEnv sampleDBFull 0 1 sampleWindow).returned.map
      (fun st => st.blocks.length)) = some 2 ∧
    wrap64 (0 + wrap64 (10 * -1)) = -10 ∧
    ((GetExplorerBlocks requestEnv sampleDBFull 0 20
        { fromParam := "1", toParam := "2", pageParam := "0", offsetParam := "" }).returned.map
      (fun resp => (resp.status, resp.blocks.map (fun b => b.Height)))) =
      some (200, ["1", "2"]) := by
  decide

/-! ## C15, C16: the epoch of a height under the mainnet schedule -/

/-- C15: under the mainnet schedule `CalcEpochNumber` maps every height below 344064
to epoch 0 and every height `h` from 344064 on to
`1 + floor((h - 344064) / 16384)`; in particular it maps 0, 327680 and 344063
to 0, 344064 and 344065 to 1 and 360448 to 2, and it agrees with every entry of
the table of `TestCalcEpochNumber`. -/
theorem C15_CalcEpochNumber_piecewise :
    (∀ h : Nat, (h < 344064 → CalcEpochNumber h = 0) ∧
      (344064 ≤ h → CalcEpochNumber h = 1 + (h - 344064) / 16384)) ∧
    (CalcEpochNumber 0 = 0 ∧ CalcEpochNumber 327680 = 0 ∧ CalcEpochNumber 344063 = 0 ∧
      CalcEpochNumber 344064 = 1 ∧ CalcEpochNumber 344065 = 1 ∧
      CalcEpochNumber 360448 = 2) ∧
    (∀ t ∈ calcEpochNumberTests, CalcEpochNumber t.1 = t.2) := by
  refine ⟨?_, by decide, by decide⟩
  intro h
  unfold CalcEpochNumber mainnetEpochBlock1 blocksPerEpoch
  constructor
  · intro hlt
    rw [if_pos hlt]
  · intro hge
    rw [if_neg (by omega)]

/-- C16: under the mainnet schedule the epoch number does not decrease with the
height: for all heights `h1 < h2`, `CalcEpochNumber h1 <= CalcEpochNumber h2`. -/
theorem C16_CalcEpochNumber_monotone (h1 h2 : Nat) (hlt : h1 < h2) :
    CalcEpochNumber h1 ≤ CalcEpochNumber h2 := by
  unfold CalcEpochNumber mainnetEpochBlock1 blocksPerEpoch
  by_cases ha : h1 < 344064
  · rw [if_pos ha]
    exact Nat.zero_le _
  · have hb : ¬ h2 < 344064 := by omega
    rw [if_neg ha, if_neg hb]
    have : (h1 - 344064) / 16384 ≤ (h2 - 344064) / 16384 :=
      Nat.div_le_div_right (by omega)
    omega

/-- C16, witness: across the first transition boundary, from height 344063 to
height 344064, the epoch goes from 0 to 1. -/
theorem C16_CalcEpochNumber_monotone_witness :
    344063 < 344064 ∧ CalcEpochNumber 344063 ≤ CalcEpochNumber 344064 ∧
    CalcEpochNumber 344063 = 0 ∧ CalcEpochNumber 344064 = 1 :=
  ⟨by decide, C16_CalcEpochNumber_monotone 344063 344064 (by decide), by decide, by decide⟩

end Explorer
